import Mathlib

/-!
Verification of the question-processing pipeline in
`enhanced_question_processor.py` (class `QuestionProcessor`).

Python strings are modelled as `List Char` (`Str`), Python dicts with string
keys as insertion-ordered association lists (`Dict`), fallible code as
`Except Str`, and `Optional[str]` results as `Option Str`.  The single
external effect read by the core logic (the publication timestamp) is passed
in as an explicit `now : Str` argument; the JSON document written to disk by
`process_single_question` is modelled as part of the return value.
-/

namespace QProc

abbrev Str := List Char

/-- Python whitespace characters recognised by `str.strip` (ASCII range). -/
def isWS (c : Char) : Bool :=
  c = ' ' || c = '\t' || c = '\n' || c = '\r' || c = '\x0b' || c = '\x0c'

/-- Python `str.strip()`. -/
def pyStrip (s : Str) : Str :=
  ((s.dropWhile isWS).reverse.dropWhile isWS).reverse

/-- Python `str.rstrip()`. -/
def pyRstrip (s : Str) : Str :=
  (s.reverse.dropWhile isWS).reverse

/-- Leftmost occurrence of `sep` in `s`: returns the text before the
occurrence and the text after it. -/
def firstSplit (sep : Str) : Str → Option (Str × Str)
  | [] => if sep = [] then some ([], []) else none
  | c :: cs =>
    if sep.isPrefixOf (c :: cs) then some ([], (c :: cs).drop sep.length)
    else (firstSplit sep cs).map (fun p => (c :: p.1, p.2))

/-- Python `sep in s` (substring containment). -/
def hasSub (s pat : Str) : Bool := (firstSplit pat s).isSome

/-- Worker for `splitOnSep`: scans `s`, skipping `skip` already-matched
separator characters, accumulating the current chunk reversed in `cur`. -/
def splitGo (sep : Str) : Str → Nat → Str → List Str
  | [], _, cur => [cur.reverse]
  | _ :: cs, k + 1, cur => splitGo sep cs k cur
  | c :: cs, 0, cur =>
    if sep.isPrefixOf (c :: cs) then cur.reverse :: splitGo sep cs (sep.length - 1) []
    else splitGo sep cs 0 (c :: cur)

/-- Python `s.split(sep)` for a non-empty separator (all occurrences,
non-overlapping, leftmost first; empty chunks kept). -/
def splitOnSep (sep s : Str) : List Str :=
  if sep = [] then [s] else splitGo sep s 0 []

/-- Python `s.split(sep, 1)` unpacked into a pair; `none` when absent. -/
def pySplit1 (sep s : Str) : Option (Str × Str) := firstSplit sep s

/-- Python `s.replace(old, new)` (all occurrences). -/
def pyReplace (s old new : Str) : Str :=
  if old = [] then s else List.intercalate new (splitOnSep old s)

/-- Python `s.replace(old, new, 1)` (first occurrence only). -/
def pyReplace1 (s old new : Str) : Str :=
  match firstSplit old s with
  | some (a, b) => a ++ new ++ b
  | none => s

/-- Python `s.split('\n')`. -/
def pySplitLines (s : Str) : List Str := splitOnSep ['\n'] s

/-- Python `'\n'.join(ls)` and friends. -/
def joinWith (sep : Str) (ls : List Str) : Str := List.intercalate sep ls

/-- Python `int()` literal syntax (ASCII): optional surrounding whitespace,
optional sign, digits with single underscores allowed between digits. -/
def digitsRestOk : Str → Bool
  | [] => true
  | '_' :: d :: r => d.isDigit && digitsRestOk r
  | '_' :: [] => false
  | d :: r => d.isDigit && digitsRestOk r

def digitsOk : Str → Bool
  | [] => false
  | c :: r => c.isDigit && digitsRestOk r

def pyIntOk (s : Str) : Bool :=
  match pyStrip s with
  | '+' :: r => digitsOk r
  | '-' :: r => digitsOk r
  | r => digitsOk r

def digitsVal (s : Str) : Nat :=
  s.foldl (fun a c => if c = '_' then a else a * 10 + (c.toNat - '0'.toNat)) 0

/-- Python `int(s)`: the parsed value, or a `ValueError`. -/
def pyIntE (s : Str) : Except Str Int :=
  if pyIntOk s then
    .ok (match pyStrip s with
         | '-' :: r => -(digitsVal r : Int)
         | '+' :: r => (digitsVal r : Int)
         | r => (digitsVal r : Int))
  else .error (("ValueError: invalid literal for int: ").toList ++ s)

/-- Python dict with string keys: insertion-ordered association list with
unique keys. -/
abbrev Dict := List (Str × Str)

def lookupD (d : Dict) (k : Str) : Option Str :=
  (d.find? (fun p => p.1 = k)).map (fun p => p.2)

/-- `d[k] = v`: overwrite in place if present, else append. -/
def insertD (d : Dict) (k v : Str) : Dict :=
  if (lookupD d k).isSome then d.map (fun p => if p.1 = k then (k, v) else p)
  else d ++ [(k, v)]

/-- `d[k] += suffix` (key created with the suffix if absent). -/
def appendD (d : Dict) (k suffix : Str) : Dict :=
  match lookupD d k with
  | some v => insertD d k (v ++ suffix)
  | none => d ++ [(k, suffix)]

/-- Python `d[k]` with a `KeyError` on absence. -/
def dictGetE (d : Dict) (k : Str) : Except Str Str :=
  match lookupD d k with
  | some v => .ok v
  | none => .error (("KeyError: ").toList ++ k)

/-- Python `x or y` on optional strings: `x` when present and non-empty,
else `y` (empty strings are falsy). -/
def pyOrStr (a b : Option Str) : Option Str :=
  match a with
  | some v => if v = [] then b else some v
  | none => b

/-! ## GlyphSubstitutionEngine (`convert_to_arabic_latex`) -/

/-- `ARABIC_LATEX_MAP`, in source (insertion) order. -/
def ARABIC_LATEX_MAP : List (Str × Str) :=
  ([("F(x)", "\\dotlessqaft (\\seen)"),
    ("Q'", "\\dotlessnoont \\prime"),
    ("N", "\\tah"), ("Z", "\\sadt"), ("Q", "\\dotlessnoont"), ("X", "\\seent"),
    ("Y", "\\sadt"), ("A", "\\alt\x7b\\alef\x7d"), ("B", "\\beh"), ("C", "\\jeemi"),
    ("D", "\\dal"), ("E", "\\hehi"), ("F", "\\waw"), ("M", "\\meem"),
    ("K", "\\kaf"), ("L", "\\lam"), ("O", "\\waw"), ("R", "\\haht"),
    ("x", "\\seen"), ("y", "\\sad"), ("z", "\\ain"), ("n", "\\noon"),
    ("s", "\\feh"), ("r", "\\aint")] : List (String × String)).map
    (fun p => (p.1.toList, p.2.toList))

/-- Map lookup `ARABIC_LATEX_MAP[key]` (total: keys come from the map). -/
def mapGet (k : Str) : Str :=
  ((ARABIC_LATEX_MAP.find? (fun p => p.1 = k)).map (fun p => p.2)).getD []

/-- Stable insertion (descending length, equal lengths keep earlier-first
order), mirroring Python's stable `sorted(keys, key=len, reverse=True)`. -/
def insertByLen (x : Str) : List Str → List Str
  | [] => [x]
  | y :: ys => if x.length ≤ y.length then y :: insertByLen x ys else x :: y :: ys

/-- `sorted(self.ARABIC_LATEX_MAP.keys(), key=len, reverse=True)`. -/
def sorted_keys : List Str :=
  (ARABIC_LATEX_MAP.map Prod.fst).foldl (fun acc x => insertByLen x acc) []

def isAsciiLetter (c : Char) : Bool := c.isUpper || c.isLower

/-- One match of the pattern `\\[a-zA-Z]+(?:\{[^}]*\})?` anchored at the head
of `s` (with regex backtracking: the brace group is included only when a
closing brace exists). -/
def matchLatexAt : Str → Option Str
  | '\\' :: cs =>
    let ls := cs.takeWhile isAsciiLetter
    if ls = [] then none
    else
      match cs.drop ls.length with
      | '{' :: r2 =>
        let content := r2.takeWhile (fun c => c ≠ '}')
        (match r2.drop content.length with
         | '}' :: _ => some ('\\' :: ls ++ '{' :: content ++ ['}'])
         | _ => some ('\\' :: ls))
      | _ => some ('\\' :: ls)
  | _ => none

/-- `re.findall` scan for LaTeX commands: leftmost, non-overlapping. -/
def cmdsGo : Str → Nat → List Str
  | [], _ => []
  | _ :: cs, k + 1 => cmdsGo cs k
  | c :: cs, 0 =>
    match matchLatexAt (c :: cs) with
    | some tok => tok :: cmdsGo cs (tok.length - 1)
    | none => cmdsGo cs 0

/-- `re.findall(r'(\\[a-zA-Z]+(?:\{[^}]*\})?)', equation)`. -/
def findLatexCommands (s : Str) : List Str := cmdsGo s 0

/-- The placeholder `__LATEX_CMD_{i}__`. -/
def placeholder (i : Nat) : Str :=
  ("__LATEX_CMD_").toList ++ (Nat.repr i).toList ++ ("__").toList

/-- The command-protection loop: each command replaced (first occurrence)
by its positional placeholder, left to right. -/
def protectCmds (cmds : List Str) (s : Str) : Str :=
  cmds.enum.foldl (fun acc p => pyReplace1 acc p.2 (placeholder p.1)) s

/-- The restoration loop: each placeholder replaced (first occurrence) back
by its command. -/
def restoreCmds (cmds : List Str) (s : Str) : Str :=
  cmds.enum.foldl (fun acc p => pyReplace1 acc (placeholder p.1) p.2) s

/-- `convert_to_arabic_latex`.  The Python body is total (no exception can
be raised inside the `try`), so the `except` fallback is unreachable; the
non-string branch of the input guard also drops out of the model. -/
def convert_to_arabic_latex (equation : Str) : Str :=
  if equation = [] then []
  else
    let latex_commands := findLatexCommands equation
    let protected_equation := protectCmds latex_commands equation
    let parts := splitOnSep [' '] protected_equation
    let processed_parts := parts.map (fun part =>
      if part ∈ sorted_keys then mapGet part
      else sorted_keys.foldl
        (fun pp key => if hasSub pp key then pyReplace pp key (mapGet key) else pp)
        part)
    let result := joinWith [' '] processed_parts
    restoreCmds latex_commands result

/-! ## MathFieldRenderer (`create_math_field`) -/

inductive Language where
  | ar
  | en
deriving DecidableEq, Repr

/-- `Language.value` (the enum's string value). -/
def Language.value : Language → Str
  | .ar => ("ar").toList
  | .en => ("en").toList

/-- `Language(s)`: enum construction, `ValueError` on anything else. -/
def languageOfE (s : Str) : Except Str Language :=
  if s = ("ar").toList then .ok .ar
  else if s = ("en").toList then .ok .en
  else .error (("ValueError: not a valid Language: ").toList ++ s)

/-- The five-character HTML escape used for math-field values. -/
def escape5 (s : Str) : Str :=
  pyReplace (pyReplace (pyReplace (pyReplace (pyReplace s
    (("&").toList) (("&amp;").toList))
    (("<").toList) (("&lt;").toList))
    ((">").toList) (("&gt;").toList))
    (("\"").toList) (("&quot;").toList))
    (("'").toList) (("&#39;").toList)

/-- `create_math_field`.  The body is total, so the `except` branch that
emits an error span is unreachable. -/
def create_math_field (equation : Str) (language : Language) (force_en : Bool) : Str :=
  if equation = [] then []
  else
    let is_arabic : Bool := (language == Language.ar) && !force_en
    let latex_value := if is_arabic then convert_to_arabic_latex equation else equation
    let locale_attrs :=
      if is_arabic then (" locale=\"ar\" lang=\"ar\"").toList else (" locale=\"en\"").toList
    let processed_value := escape5 latex_value
    ("<span class=\"LexicalTheme__math--inline\" data-node-type=\"math\" data-node-variation=\"inline\"><math-field default-mode=\"inline-math\" read-only=\"true\" value=\"").toList
      ++ processed_value ++ ("\"").toList ++ locale_attrs
      ++ ("></math-field></span>").toList

/-! ## InlineTextRenderer (`process_text_for_html`) -/

/-- The fixed blank marker inserted for `_____`. -/
def blankHtml : Str :=
  ("<span data-node-type=\"blank-line\" data-node-variation=\"space\">&nbsp;</span>").toList

/-- One match of the pattern ```` (``[^`]*``|`[^`]*`) ```` anchored at the
head of `s`, with the regex engine's alternative order and backtracking:
at a double backtick with no double-backtick close, the second alternative
matches the two backticks as an empty single-backtick span. -/
def matchMathAt : Str → Option Str
  | '`' :: rest =>
    match rest with
    | '`' :: r2 =>
      let content := r2.takeWhile (fun c => c ≠ '`')
      (match r2.drop content.length with
       | '`' :: '`' :: _ => some ('`' :: '`' :: content ++ ['`', '`'])
       | _ => some ['`', '`'])
    | _ =>
      let content := rest.takeWhile (fun c => c ≠ '`')
      (match rest.drop content.length with
       | '`' :: _ => some ('`' :: content ++ ['`'])
       | _ => none)
  | _ => none

/-- `re.split` with the math pattern: alternating non-match and match
segments (`cur` holds the current non-match segment reversed, `skip` the
remaining characters of a just-emitted match). -/
def mathGo : Str → Nat → Str → List Str
  | [], _, cur => [cur.reverse]
  | _ :: cs, k + 1, cur => mathGo cs k cur
  | c :: cs, 0, cur =>
    match matchMathAt (c :: cs) with
    | some tok => cur.reverse :: tok :: mathGo cs (tok.length - 1) []
    | none => mathGo cs 0 (c :: cur)

def mathSplit (s : Str) : List Str := mathGo s 0 []

/-- The three-character HTML escape used for plain text segments. -/
def escape3 (s : Str) : Str :=
  pyReplace (pyReplace (pyReplace s
    (("&").toList) (("&amp;").toList))
    (("<").toList) (("&lt;").toList))
    ((">").toList) (("&gt;").toList)

/-- Python `part[2:-2]` and `part[1:-1]`. -/
def sliceDrop (k : Nat) (part : Str) : Str := (part.drop k).take (part.length - 2 * k)

/-- `process_text_for_html`.  The body is total, so the `except` branch that
emits a truncated error paragraph is unreachable. -/
def process_text_for_html (text : Str) (language : Language) : Str :=
  if text = [] then []
  else
    let direction := if language == Language.ar then (" dir=\"rtl\"").toList else []
    let processed_text := pyReplace text (("_____").toList) blankHtml
    let parts := mathSplit processed_text
    let final_html_content := parts.foldl (fun acc part =>
      if part = [] then acc
      else if (("``").toList).isPrefixOf part && (("``").toList).isSuffixOf part then
        let math_content := pyStrip (sliceDrop 2 part)
        if math_content ≠ [] then acc ++ create_math_field math_content language true else acc
      else if (("`").toList).isPrefixOf part && (("`").toList).isSuffixOf part then
        let math_content := pyStrip (sliceDrop 1 part)
        if math_content ≠ [] then acc ++ create_math_field math_content language false else acc
      else
        acc ++ ("<span style=\"white-space: pre-wrap;\">").toList
            ++ escape3 part ++ ("</span>").toList) []
    ("<p class=\"LexicalTheme__paragraph\"").toList ++ direction ++ (">").toList
      ++ final_html_content ++ ("</p>").toList

/-! ## MetadataValidator (`validate_metadata`) -/

def validate_metadata (metadata : Dict) : Bool × List Str :=
  let errors0 := [("id").toList, ("language").toList].foldl (fun errs field =>
    match lookupD metadata field with
    | none => errs ++ [("Missing required field: ").toList ++ field]
    | some v =>
      if v = [] then errs ++ [("Missing required field: ").toList ++ field] else errs) []
  let errors1 :=
    match lookupD metadata (("language").toList) with
    | some v =>
      if v = ("ar").toList ∨ v = ("en").toList then errors0
      else errors0 ++ [("Invalid language: ").toList ++ v]
    | none => errors0
  let errors2 :=
    match lookupD metadata (("id").toList) with
    | some v =>
      if pyIntOk v then errors1 else errors1 ++ [("ID must be numeric: ").toList ++ v]
    | none => errors1
  (errors2.isEmpty, errors2)

/-! ## Output record shapes -/

structure GapKey where
  value : Str
  correct_order : Nat
deriving DecidableEq, Repr

/-- One choice dict.  `group` and `correct_order` are `none` for builders
whose dicts do not carry those keys. -/
structure Choice where
  type : Str
  html_content : Str
  values : List Str
  unit : Option Str
  index : Nat
  fixed_order : Nat
  last_order : Bool
  group : Option Nat := none
  correct_order : Option Nat := none
deriving DecidableEq, Repr

/-- The `choices` key of a part dict: absent, explicitly null (String
builder), or a list. -/
inductive ChoicesField where
  | absent
  | nullv
  | listv (cs : List Choice)
deriving DecidableEq, Repr

/-- The `answer` key of a part dict: absent, a one-element list (String
builder), a plain HTML string (FRQ), or the input-box object. -/
inductive AnswerField where
  | absent
  | listv (a : List Str)
  | htmlv (a : Str)
  | boxv (value : Str) (unit : Option Str) (constrains : Str)
deriving DecidableEq, Repr

structure Part where
  n : Nat
  type : Str
  subtype : Option Str
  standalone : Bool
  stem : Option Str := none
  choices : ChoicesField := .absent
  answer : AnswerField := .absent
  gap_text_keys : Option (List GapKey) := none
  ai : Option Str := none
  direction : Option Str := none
deriving DecidableEq, Repr

structure QMeta where
  id : Int
  mapped_id : Int
  category : Str
  language : Str
  country : Str
  dialect : List Str
  source_id_value : Nat
  source_id_page : Option Nat
  description : Str
  example_id : Option Nat
  has_example : Bool
  instances_count : Nat
  publication_date : Str
  parts_count : Nat
deriving DecidableEq, Repr

structure FinalJson where
  parts : List Part
  statement : Option Str
  instance_number : Nat
  metadata : QMeta
deriving DecidableEq, Repr

structure ProcessingStats where
  total_questions : Nat
  successful : Nat
  failed : Nat
  generated_files : List Str
deriving DecidableEq, Repr

inductive QuestionType where
  | mcq | mrq | string | oq | gapText | matching | input_box | frq | frq_ai
deriving DecidableEq, Repr

def QuestionType.value : QuestionType → Str
  | .mcq => ("mcq").toList
  | .mrq => ("mrq").toList
  | .string => ("string").toList
  | .oq => ("oq").toList
  | .gapText => ("gapText").toList
  | .matching => ("matching").toList
  | .input_box => ("input_box").toList
  | .frq => ("frq").toList
  | .frq_ai => ("frq_ai").toList

/-- `QuestionType(s)`, as an option (the caller maps `ValueError` to its
own message). -/
def questionTypeOf (s : Str) : Option QuestionType :=
  if s = ("mcq").toList then some .mcq
  else if s = ("mrq").toList then some .mrq
  else if s = ("string").toList then some .string
  else if s = ("oq").toList then some .oq
  else if s = ("gapText").toList then some .gapText
  else if s = ("matching").toList then some .matching
  else if s = ("input_box").toList then some .input_box
  else if s = ("frq").toList then some .frq
  else if s = ("frq_ai").toList then some .frq_ai
  else none

/-! ## Part builders -/

/-- `[line.strip() for line in s.strip().split('\n') if line.strip()]`. -/
def nonblankLines (s : Str) : List Str :=
  ((pySplitLines (pyStrip s)).map pyStrip).filter (fun l => l ≠ [])

/-- `process_mcq_mrq_part` (returns the `choices` list of its result dict). -/
def process_mcq_mrq_part (content : Dict) (language : Language) :
    Except Str (List Choice) :=
  match lookupD content (("choices").toList) with
  | none => .error ("MCQ/MRQ questions must have choices").toList
  | some ch => .ok ((nonblankLines ch).enum.map (fun p =>
      let j := p.1
      let choice_line := p.2
      let is_key := choice_line.head? = some '*'
      let text := if is_key then pyStrip (choice_line.drop 1) else pyStrip choice_line
      { type := if is_key then ("key").toList else ("distractor").toList
        html_content := process_text_for_html text language
        values := []
        unit := none
        index := j
        fixed_order := j + 1
        last_order := false }))

/-- `process_string_part` (returns the rendered answer and the optional
`ai_template_id`; the result dict also nulls `choices`, applied at the
dispatch site). -/
def process_string_part (content : Dict) (metadata : Dict) (part_metadata : Dict)
    (language : Language) : Except Str (Str × Option Str) :=
  match lookupD content (("answer").toList) with
  | none => .error ("String questions must have an answer").toList
  | some ans =>
    let ai_id := pyOrStr (lookupD part_metadata (("ai_template_id").toList))
                         (lookupD metadata (("ai_template_id").toList))
    let ai := match ai_id with
              | some v => if v = [] then none else some v
              | none => none
    .ok (process_text_for_html (pyStrip ans) language, ai)

/-- `process_oq_part` (returns the `choices` list; the fixed `direction`
is applied at the dispatch site). -/
def process_oq_part (content : Dict) (language : Language) :
    Except Str (List Choice) :=
  match lookupD content (("choices").toList) with
  | none => .error ("OQ questions must have choices").toList
  | some ch => .ok ((nonblankLines ch).enum.map (fun p =>
      let j := p.1
      { type := ("distractor").toList
        html_content := process_text_for_html p.2 language
        correct_order := some (j + 1)
        values := []
        unit := none
        index := j
        fixed_order := j + 1
        last_order := false }))

/-- The fixed gap marker inserted for `[BLANK]`. -/
def gapHtml : Str :=
  ("<span data-node-type=\"blank-line\" data-node-variation=\"gap\">&nbsp;</span>").toList

/-- `process_gap_text_part` (returns the gap keys and the rendered stem;
the empty `choices` list is applied at the dispatch site). -/
def process_gap_text_part (content : Dict) (language : Language) :
    Except Str (List GapKey × Str) :=
  match lookupD content (("gaps").toList), lookupD content (("stem").toList) with
  | some gaps, some stem =>
    let gap_text_keys := (nonblankLines gaps).enum.map (fun p =>
      { value := p.2, correct_order := p.1 + 1 : GapKey })
    let processed_stem := pyReplace (pyStrip stem) (("[BLANK]").toList) gapHtml
    .ok (gap_text_keys, process_text_for_html processed_stem language)
  | _, _ => .error ("Gap text questions must have gaps and stem").toList

/-- The loop body of `process_matching_part`: `j` is the 0-based line index
and `npairs` the total `len(pair_lines)`. -/
def matchLoop (npairs : Nat) (language : Language) : Nat → List Str → Except Str (List Choice)
  | _, [] => .ok []
  | j, line :: rest =>
    if hasSub line (("|").toList) = false then
      .error (("Matching pair must contain '|' separator: ").toList ++ line)
    else
      let sp := (pySplit1 (("|").toList) line).getD (line, [])
      match matchLoop npairs language (j + 1) rest with
      | .error e => .error e
      | .ok restChoices =>
        .ok ({ type := ("distractor").toList
               html_content := process_text_for_html (pyStrip sp.1) language
               group := some 1
               correct_order := some (j + 1)
               values := []
               unit := none
               index := j
               fixed_order := j + 1
               last_order := false : Choice } ::
             { type := ("distractor").toList
               html_content := process_text_for_html (pyStrip sp.2) language
               group := some 2
               correct_order := some (j + 1)
               values := []
               unit := none
               index := j + npairs
               fixed_order := j + 1 + npairs
               last_order := false : Choice } :: restChoices)

/-- `process_matching_part` (returns the `choices` list). -/
def process_matching_part (content : Dict) (language : Language) :
    Except Str (List Choice) :=
  match lookupD content (("matching_pairs").toList) with
  | none => .error ("Matching questions must have matching_pairs").toList
  | some mp =>
    let pair_lines := nonblankLines mp
    matchLoop pair_lines.length language 0 pair_lines

/-- `process_input_box_part` (returns `(value, unit)`; the fixed constraint
object and empty `choices` are applied at the dispatch site). -/
def process_input_box_part (content : Dict) : Except Str (Str × Option Str) :=
  match lookupD content (("answer").toList) with
  | none => .error ("Input box questions must have an answer").toList
  | some ans =>
    let answer_parts := splitOnSep [Char.ofNat 124] (pyStrip ans)
    match answer_parts with
    | v :: u :: _ => .ok (pyStrip v, some (pyStrip u))
    | v :: [] => .ok (pyStrip v, none)
    | [] => .ok ([], none)

/-- `process_frq_part` (returns the rendered answer and the optional or
mandatory `ai` attachment). -/
def process_frq_part (content : Dict) (metadata : Dict) (part_metadata : Dict)
    (language : Language) (question_type : QuestionType) :
    Except Str (Str × Option Str) :=
  match lookupD content (("answer").toList) with
  | none => .error ("FRQ questions must have an answer").toList
  | some ans =>
    let base := process_text_for_html (pyStrip ans) language
    if question_type = QuestionType.frq_ai then
      let ai_id := pyOrStr (lookupD part_metadata (("ai_template_id").toList))
                           (lookupD metadata (("ai_template_id").toList))
      match ai_id with
      | some v =>
        if v = [] then .error ("'ai_template_id' is required for frq_ai type").toList
        else .ok (base, some v)
      | none => .error ("'ai_template_id' is required for frq_ai type").toList
    else .ok (base, none)

/-! ## Part block parsing and dispatch (`process_question_part`) -/

def isTagChar (c : Char) : Bool := c.isUpper || c = '_'

/-- `re.match(r'^\[([A-Z_]+)\]$', line)`, returning the lower-cased tag. -/
def matchTag (line : Str) : Option Str :=
  match line with
  | '[' :: rest =>
    let body := rest.takeWhile isTagChar
    if body ≠ [] ∧ rest.drop body.length = [']'] then some (body.map Char.toLower)
    else none
  | _ => none

def isMetaKeyChar (c : Char) : Bool := c.isLower || c = '_'

/-- `re.match(r'^([a-z_]+):\s*(.*)', line)`. -/
def matchMeta (line : Str) : Option (Str × Str) :=
  let key := line.takeWhile isMetaKeyChar
  if key = [] then none
  else
    match line.drop key.length with
    | ':' :: rest => some (key, rest.dropWhile isWS)
    | _ => none

/-- The line-scanning state of the part block parser:
`(part_metadata, content, current_tag)`. -/
def partScanStep (st : Dict × Dict × Option Str) (line : Str) : Dict × Dict × Option Str :=
  match matchTag line with
  | some tag => (st.1, insertD st.2.1 tag [], some tag)
  | none =>
    match matchMeta line, st.2.2 with
    | some kv, none => (insertD st.1 kv.1 kv.2, st.2.1, st.2.2)
    | _, some tag =>
      if pyStrip line ≠ [] then (st.1, appendD st.2.1 tag (line ++ ['\n']), st.2.2)
      else st
    | _, _ => st

/-- The part block parse: per-part metadata and tag-keyed content (content
values stripped at the end, as in the cleanup loop). -/
def parsePartBlock (part_block : Str) : Dict × Dict :=
  let st := (pySplitLines (pyStrip part_block)).foldl partScanStep ([], [], none)
  (st.1, st.2.1.map (fun p => (p.1, pyStrip p.2)))

/-- `process_question_part`.  The inner `try` re-raises, so the function is
the `Except`-valued body. -/
def process_question_part (part_block : Str) (part_counter : Nat)
    (metadata : Dict) (language : Language) : Except Str Part :=
  let pm_content := parsePartBlock part_block
  let part_metadata := pm_content.1
  let content := pm_content.2
  let part_type_str := pyOrStr (lookupD part_metadata (("type").toList))
                               (lookupD metadata (("type").toList))
  match part_type_str with
  | none => .error ("Question type not specified").toList
  | some ts =>
    if ts = [] then .error ("Question type not specified").toList
    else
      match questionTypeOf ts with
      | none => .error (("Unsupported question type: ").toList ++ ts)
      | some question_type =>
        let basePart : Part :=
          { n := part_counter
            type := question_type.value
            subtype := none
            standalone := false
            stem := (lookupD content (("stem").toList)).map
              (fun sv => process_text_for_html sv language) }
        match question_type with
        | .mcq | .mrq =>
          match process_mcq_mrq_part content language with
          | .error e => .error e
          | .ok cs => .ok { basePart with choices := .listv cs }
        | .string =>
          match process_string_part content metadata part_metadata language with
          | .error e => .error e
          | .ok r => .ok { basePart with choices := .nullv,
                                         answer := .listv [r.1], ai := r.2 }
        | .oq =>
          match process_oq_part content language with
          | .error e => .error e
          | .ok cs => .ok { basePart with direction := some ("vertical").toList,
                                          choices := .listv cs }
        | .gapText =>
          match process_gap_text_part content language with
          | .error e => .error e
          | .ok r => .ok { basePart with stem := some r.2, choices := .listv [],
                                         gap_text_keys := some r.1 }
        | .matching =>
          match process_matching_part content language with
          | .error e => .error e
          | .ok cs => .ok { basePart with choices := .listv cs }
        | .input_box =>
          match process_input_box_part content with
          | .error e => .error e
          | .ok r => .ok { basePart with choices := .listv [],
                                         answer := .boxv r.1 r.2 (("integer").toList) }
        | .frq | .frq_ai =>
          match process_frq_part content metadata part_metadata language question_type with
          | .error e => .error e
          | .ok r => .ok { basePart with choices := .listv [],
                                         answer := .htmlv r.1, ai := r.2 }

/-! ## QuestionAssembler (`process_single_question`) -/

/-- `create_base_json_structure`.  `now` is the injected timestamp.  The
`int` conversions can raise (relevant for a non-numeric `mapped_id`). -/
def create_base_json_structure (metadata : Dict) (now : Str) : Except Str FinalJson :=
  match dictGetE metadata (("language").toList) with
  | .error e => .error e
  | .ok langStr =>
    match languageOfE langStr with
    | .error e => .error e
    | .ok language =>
      match dictGetE metadata (("id").toList) with
      | .error e => .error e
      | .ok idStr =>
        match pyIntE idStr with
        | .error e => .error e
        | .ok question_id =>
          let swapped : Except Str (Int × Int) :=
            match language, lookupD metadata (("mapped_id").toList) with
            | .ar, some mv =>
              (match pyIntE mv with
               | .error e => .error e
               | .ok m => .ok (m, question_id))
            | _, _ => .ok (question_id, question_id)
          match swapped with
          | .error e => .error e
          | .ok ids =>
            let dialect := match language with
              | .ar => [("modern_standard").toList]
              | .en => [("american").toList, ("british").toList]
            .ok { parts := []
                  statement := none
                  instance_number := 1
                  metadata :=
                    { id := ids.1
                      mapped_id := ids.2
                      category := (lookupD metadata (("category").toList)).getD ("exam").toList
                      language := language.value
                      country := (lookupD metadata (("country").toList)).getD ("eg").toList
                      dialect := dialect
                      source_id_value := 182136230818
                      source_id_page := none
                      description := (lookupD metadata (("description").toList)).getD []
                      example_id := none
                      has_example := false
                      instances_count := 1
                      publication_date := now
                      parts_count := 0 } }

/-- The metadata-collection loop of `process_single_question`: `key: value`
lines up to the first line starting with `[` (all lines when there is no
such line). -/
def collectMeta (acc : Dict) : List Str → Dict
  | [] => acc
  | line :: rest =>
    if line.head? = some '[' then acc
    else
      collectMeta
        (if hasSub line ([':']) then
          let kv := (firstSplit ([':']) line).getD ([], [])
          insertD acc (pyStrip kv.1) (pyStrip kv.2)
         else acc) rest

/-- `metadata_end_index`: index of the first line starting with `[`,
`0` when no line does (so the metadata lines are then re-included in the
content). -/
def metaEndIdx (lines : List Str) : Nat :=
  (lines.findIdx? (fun l => l.head? = some '[')).getD 0

/-- The statement/parts branch of `process_single_question`: returns the
rendered statement (when any) and the raw part blocks. -/
def statementAndParts (content_str : Str) (language : Language) :
    Option Str × List Str :=
  if hasSub content_str (("[STATEMENT]").toList) ∧ hasSub content_str (("[PART]").toList) then
    let sp := (firstSplit (("[PART]").toList) content_str).getD (content_str, [])
    let statement_text := pyStrip (pyReplace sp.1 (("[STATEMENT]").toList) [])
    let st := if statement_text ≠ [] then
                some (process_text_for_html statement_text language)
              else none
    let part_blocks_raw := splitOnSep (("[PART]").toList) ((("[PART]").toList) ++ sp.2)
    (st, (part_blocks_raw.map pyStrip).filter (fun p => p ≠ []))
  else
    (none, if pyStrip content_str ≠ [] then [content_str] else [])

/-- The parts loop of `process_single_question`: `enumerate(part_blocks, 1)`
with blank blocks skipped (the counter still advances). -/
def partsLoop (metadata : Dict) (language : Language) :
    Nat → List Str → Except Str (List Part)
  | _, [] => .ok []
  | ctr, pb :: pbs =>
    if pyStrip pb = [] then partsLoop metadata language (ctr + 1) pbs
    else
      match process_question_part pb ctr metadata language with
      | .error e => .error e
      | .ok part =>
        match partsLoop metadata language (ctr + 1) pbs with
        | .error e => .error e
        | .ok rest => .ok (part :: rest)

/-- The `try` body of `process_single_question`: the assembled record and
the generated file name, or the raised error.  The JSON document written to
`<id>.json` is returned instead of persisted. -/
def psqE (now block : Str) : Except Str (FinalJson × Str) :=
  let lines := (pySplitLines (pyStrip block)).map pyRstrip
  let metadata := collectMeta [] lines
  let valid := validate_metadata metadata
  if valid.1 = false then
    .error ((("Metadata validation failed: ").toList) ++ joinWith ((", ").toList) valid.2)
  else
    match dictGetE metadata (("language").toList) with
    | .error e => .error e
    | .ok langStr =>
      match languageOfE langStr with
      | .error e => .error e
      | .ok language =>
        match create_base_json_structure metadata now with
        | .error e => .error e
        | .ok base =>
          let content_str := joinWith ['\n'] (lines.drop (metaEndIdx lines))
          let sp := statementAndParts content_str language
          match partsLoop metadata language 1 sp.2 with
          | .error e => .error e
          | .ok parts =>
            let final_json : FinalJson :=
              { base with
                statement := sp.1
                parts := parts
                metadata := { base.metadata with parts_count := parts.length } }
            if parts = [] then .error ("No valid parts found in question").toList
            else
              match dictGetE metadata (("id").toList) with
              | .error e => .error e
              | .ok idv => .ok (final_json, idv ++ (".json").toList)

/-- `process_single_question`: the `except` clause catches every raised
error and returns `None`; on success the generated file name is returned. -/
def process_single_question (now block : Str) : Option Str :=
  match psqE now block with
  | .ok r => some r.2
  | .error _ => none

/-! ## BatchRunner (`process_google_doc`) -/

/-- The document split of `process_google_doc`:
`[block.strip() for block in doc_content.strip().split('---\n') if block.strip()]`. -/
def splitDocument (doc_content : Str) : List Str :=
  ((splitOnSep (("---\n").toList) (pyStrip doc_content)).map pyStrip).filter
    (fun b => b ≠ [])

/-- The per-question loop: successes, failures and generated files
accumulated in document order (`total_questions` is set by the caller). -/
def statsLoop (now : Str) : List Str → ProcessingStats
  | [] => { total_questions := 0, successful := 0, failed := 0, generated_files := [] }
  | b :: bs =>
    let rest := statsLoop now bs
    match process_single_question now b with
    | some f => { rest with successful := rest.successful + 1,
                            generated_files := f :: rest.generated_files }
    | none => { rest with failed := rest.failed + 1 }

/-- `process_google_doc`.  After the loop the success-rate log line divides
by `total_questions`; with zero question blocks this raises
`ZeroDivisionError`, modelled as the error branch. -/
def process_google_doc (now doc_content : Str) : Except Str ProcessingStats :=
  let question_blocks := splitDocument doc_content
  let stats := { statsLoop now question_blocks with
                 total_questions := question_blocks.length }
  if question_blocks.length = 0 then
    .error ("ZeroDivisionError: division by zero").toList
  else .ok stats

/-! ## Spec-side definitions used for refinement comparisons -/

/-- Modelled from the spec (claim C9's reading): split the document into
blocks at lines containing exactly `---`, join the runs between separator
lines, trim each block, drop empty blocks. -/
def specSplitLineGroups : List Str → List Str × List (List Str)
  | [] => ([], [])
  | l :: ls =>
    let rest := specSplitLineGroups ls
    if l = ("---").toList then ([], rest.1 :: rest.2)
    else (l :: rest.1, rest.2)

/-- Modelled from the spec: blocks are the maximal runs of text between
separator lines that contain exactly `---`, each trimmed, empties dropped,
in document order. -/
def specSplitDocument (doc_content : Str) : List Str :=
  let groups := specSplitLineGroups (pySplitLines doc_content)
  ((groups.1 :: groups.2).map (fun g => pyStrip (joinWith ['\n'] g))).filter
    (fun b => b ≠ [])

/-! ## Auxiliary definitions used by the theorems -/

/-- Character-wise expansion: the effect of a single-character
`str.replace`. -/
def charExpand (c : Char) (r : Str) : Str → Str
  | [] => []
  | d :: ds => (if d = c then r else [d]) ++ charExpand c r ds

/-- A paragraph whose whole content is one plain-text segment, as emitted
by `process_text_for_html`. -/
def plainPara (language : Language) (inner : Str) : Str :=
  ("<p class=\"LexicalTheme__paragraph\"").toList ++
  (if language == Language.ar then (" dir=\"rtl\"").toList else []) ++
  (">").toList ++ ("<span style=\"white-space: pre-wrap;\">").toList ++ inner ++
  ("</span>").toList ++ ("</p>").toList

/-- The question-level metadata map parsed from a block, as
`process_single_question` builds it. -/
def questionMetadata (block : Str) : Dict :=
  collectMeta [] ((pySplitLines (pyStrip block)).map pyRstrip)

/-- The spec's characterization of valid question metadata (claim C8): a
non-empty `id` that parses as an integer, and a `language` equal to `en`
or `ar`. -/
def specValidMetadata (md : Dict) : Prop :=
  (∃ v, lookupD md (("id").toList) = some v ∧ v ≠ [] ∧ pyIntOk v = true) ∧
  (lookupD md (("language").toList) = some (("en").toList) ∨
   lookupD md (("language").toList) = some (("ar").toList))

/-- The invariant of claim C3 on an emitted question record. -/
def partsNumbered (fj : FinalJson) : Prop :=
  fj.metadata.parts_count = fj.parts.length ∧ fj.parts ≠ [] ∧
  ∀ i (h : i < fj.parts.length), (fj.parts.get ⟨i, h⟩).n = i + 1

/-! ## Theorems -/

set_option maxRecDepth 100000

/-- Claim C1 (code evaluated at the failing input): for the equation
`\frac{a}{b}`, the LaTeX command token matched by the protection pattern
(`\frac{a}`) does not appear in the output of `convert_to_arabic_latex` at
all — not even the bare `\frac` survives.  The placeholder
`__LATEX_CMD_0__` contains substitution keys (`L`, `A`, `X`, `C`, `M`,
`D`, `E`), is itself glyph-substituted, and the restoration pass then
fails to find it, contradicting the protection the code's own comments
promise. -/
theorem convert_to_arabic_latex_destroys_commands :
    hasSub (convert_to_arabic_latex (("\\frac\x7ba\x7d\x7bb\x7d").toList))
      (("\\frac").toList) = false ∧
    convert_to_arabic_latex (("\\frac\x7ba\x7d\x7bb\x7d").toList)
      ≠ (("\\frac\x7ba\x7d\x7bb\x7d").toList) := by
  constructor
  · decide
  · decide

/-- Claim C5 (code evaluated at the failing input): on a document with zero
non-empty question blocks, `process_google_doc` does not return a
`ProcessingStats` value — the success-rate log line divides by
`total_questions = 0` and the resulting `ZeroDivisionError` propagates to
the caller. -/
theorem process_google_doc_empty_doc_raises :
    process_google_doc (("T").toList) [] =
      .error (("ZeroDivisionError: division by zero").toList) := by
  rfl

/-- Claim C9, counterexample: the input `a---\nb` has no line containing
exactly `---`, so under the claim it is a single block; the code splits on
every occurrence of the four-character substring `---\n` and produces two
blocks. -/
theorem splitDocument_not_line_based :
    splitDocument (("a---\nb").toList) = [("a").toList, ("b").toList] ∧
    specSplitDocument (("a---\nb").toList) = [("a---\nb").toList] ∧
    splitDocument (("a---\nb").toList) ≠ specSplitDocument (("a---\nb").toList) := by
  refine ⟨by decide, by decide, by decide⟩

/-- Claim C2, counterexample: for the input `_____` the blank marker is
inserted and then HTML-escaped together with the surrounding plain text, so
the fixed blank-span marker does not survive into the output as actual HTML
markup (its escaped form does). -/
theorem blank_marker_does_not_survive_as_markup :
    hasSub (process_text_for_html (("_____").toList) Language.en) blankHtml = false ∧
    hasSub (process_text_for_html (("_____").toList) Language.en)
      (("&lt;span data-node-type=\"blank-line\"").toList) = true := by
  refine ⟨by decide, by decide⟩

/-- Claim C4, counterexample: with the two matching lines `a | b` and
`c | d` (N = 2), the claim requires the choices at list positions 0 and 1
to form group 1; the emitted list is interleaved per source line, and the
choice at position 1 is the group-2 item of the first line. -/
theorem matching_choices_are_interleaved :
    (process_matching_part
        [((("matching_pairs").toList), ("a | b\nc | d").toList)] Language.en).map
      (fun cs => cs.map (fun c => (c.group, c.index, c.fixed_order, c.correct_order)))
      = .ok [(some 1, 0, 1, some 1), (some 2, 2, 3, some 1),
             (some 1, 1, 2, some 2), (some 2, 3, 4, some 2)] := by
  rfl

/-! ### Lemmas about the string primitives -/

theorem firstSplit_cons (sep : Str) (c : Char) (cs : Str) :
    firstSplit sep (c :: cs) =
      if sep.isPrefixOf (c :: cs) then some ([], (c :: cs).drop sep.length)
      else (firstSplit sep cs).map (fun p => (c :: p.1, p.2)) := rfl

theorem splitGo_skip (sep : Str) (k : Nat) (s cur : Str) (h : k ≤ s.length) :
    splitGo sep s k cur = splitGo sep (s.drop k) 0 cur := by
  induction k generalizing s with
  | zero => simp
  | succ n ih =>
    cases s with
    | nil => simp at h
    | cons c cs =>
      simpa [splitGo] using ih cs (by simpa using h)

theorem splitGo_ne_nil (sep : Str) (s : Str) (k : Nat) (cur : Str) :
    splitGo sep s k cur ≠ [] := by
  induction s generalizing k cur with
  | nil => simp [splitGo]
  | cons c cs ih =>
    cases k with
    | zero =>
      by_cases hp : sep.isPrefixOf (c :: cs)
      · simp [splitGo, hp]
      · simpa [splitGo, hp] using ih 0 (c :: cur)
    | succ n => simpa [splitGo] using ih n cur

theorem splitGo_of_none (sep : Str) (s cur : Str) (h : firstSplit sep s = none) :
    splitGo sep s 0 cur = [cur.reverse ++ s] := by
  induction s generalizing cur with
  | nil => simp [splitGo]
  | cons c cs ih =>
    rw [firstSplit_cons] at h
    by_cases hp : sep.isPrefixOf (c :: cs)
    · simp [hp] at h
    · rw [if_neg hp, Option.map_eq_none'] at h
      rw [splitGo, if_neg hp, ih (c :: cur) h]
      simp

theorem splitOnSep_of_none (sep s : Str) (hsep : sep ≠ []) (h : firstSplit sep s = none) :
    splitOnSep sep s = [s] := by
  unfold splitOnSep
  rw [if_neg hsep]
  simpa using splitGo_of_none sep s [] h

theorem splitGo_of_some (sep : Str) (hsep : sep ≠ []) :
    ∀ (s a b cur : Str), firstSplit sep s = some (a, b) →
      splitGo sep s 0 cur = (cur.reverse ++ a) :: splitGo sep b 0 [] := by
  intro s
  induction s with
  | nil =>
    intro a b cur h
    simp [firstSplit, hsep] at h
  | cons c cs ih =>
    intro a b cur h
    rw [firstSplit_cons] at h
    by_cases hp : sep.isPrefixOf (c :: cs)
    · rw [if_pos hp] at h
      have hlen : sep.length ≤ cs.length + 1 :=
        by simpa using (List.isPrefixOf_iff_prefix.mp hp).length_le
      injection h with h'
      have ha : a = [] := (Prod.mk.injEq _ _ _ _ ▸ h').1.symm
      have hb : b = (c :: cs).drop sep.length := ((Prod.mk.injEq _ _ _ _ ▸ h').2).symm
      subst ha
      rw [splitGo, if_pos hp]
      have hdrop : (c :: cs).drop sep.length = cs.drop (sep.length - 1) := by
        cases hsl : sep.length with
        | zero => exact absurd (List.length_eq_zero.mp hsl) hsep
        | succ m => simp
      rw [splitGo_skip sep (sep.length - 1) cs [] (by omega), hb, hdrop]
      simp
    · rw [if_neg hp] at h
      rcases Option.map_eq_some'.mp h with ⟨⟨a', b'⟩, hcs, hps⟩
      cases hps
      rw [splitGo, if_neg hp, ih a' b' (c :: cur) hcs]
      simp

theorem splitOnSep_of_some (sep s a b : Str) (hsep : sep ≠ [])
    (h : firstSplit sep s = some (a, b)) :
    splitOnSep sep s = a :: splitOnSep sep b := by
  unfold splitOnSep
  rw [if_neg hsep, if_neg hsep]
  simpa using splitGo_of_some sep hsep s a b [] h

theorem firstSplit_of_head_notMem (h : Char) (p' s : Str) (hm : h ∉ s) :
    firstSplit (h :: p') s = none := by
  induction s with
  | nil => simp [firstSplit]
  | cons c cs ih =>
    rw [firstSplit_cons]
    have hc : ¬ (h :: p').isPrefixOf (c :: cs) = true := by
      intro hp
      rcases List.isPrefixOf_iff_prefix.mp hp with ⟨t, ht⟩
      injection ht with h1 _
      exact hm (h1 ▸ List.mem_cons_self c cs)
    rw [if_neg hc, ih (fun hmem => hm (List.mem_cons_of_mem c hmem))]
    rfl

theorem firstSplit_append_of_head_notMem (h : Char) (p' a b : Str) (hm : h ∉ a) :
    firstSplit (h :: p') (a ++ (h :: p') ++ b) = some (a, b) := by
  induction a with
  | nil =>
    have hp : (h :: p').isPrefixOf ((h :: p') ++ b) = true :=
      List.isPrefixOf_iff_prefix.mpr ⟨b, rfl⟩
    have : ([] : Str) ++ (h :: p') ++ b = h :: (p' ++ b) := by simp
    rw [this]
    rw [firstSplit_cons]
    have hp' : (h :: p').isPrefixOf (h :: (p' ++ b)) = true := by
      simpa using hp
    rw [if_pos hp']
    have hd : (h :: (p' ++ b)).drop (h :: p').length = b := by
      have := List.drop_left (h :: p') b
      simpa using this
    rw [hd]
  | cons c a' ih =>
    have hstep : (c :: a') ++ (h :: p') ++ b = c :: (a' ++ (h :: p') ++ b) := by simp
    rw [hstep, firstSplit_cons]
    have hc : ¬ (h :: p').isPrefixOf (c :: (a' ++ (h :: p') ++ b)) = true := by
      intro hp
      rcases List.isPrefixOf_iff_prefix.mp hp with ⟨t, ht⟩
      injection ht with h1 _
      exact hm (h1 ▸ List.mem_cons_self c a')
    rw [if_neg hc, ih (fun hmem => hm (List.mem_cons_of_mem c hmem))]
    rfl

theorem intercalate_cons_two (s a : Str) (b : Str) (l : List Str) :
    List.intercalate s (a :: b :: l) = a ++ s ++ List.intercalate s (b :: l) := by
  simp [List.intercalate, List.intersperse]

theorem intercalate_single (s a : Str) : List.intercalate s [a] = a := by
  simp [List.intercalate]

theorem pyReplace_of_none (s old new : Str) (hsep : old ≠ [])
    (h : firstSplit old s = none) : pyReplace s old new = s := by
  unfold pyReplace
  rw [if_neg hsep, splitOnSep_of_none old s hsep h, intercalate_single]

theorem splitOnSep_intercalate (h : Char) (p' : Str) (ts : List Str) (hne : ts ≠ [])
    (hm : ∀ t ∈ ts, h ∉ t) :
    splitOnSep (h :: p') (List.intercalate (h :: p') ts) = ts := by
  induction ts with
  | nil => exact absurd rfl hne
  | cons t ts' ih =>
    cases ts' with
    | nil =>
      rw [intercalate_single]
      exact splitOnSep_of_none _ _ (by simp)
        (firstSplit_of_head_notMem h p' t (fun hmem => by
          simpa using hm t (by simp) hmem))
    | cons u us =>
      rw [intercalate_cons_two]
      have hfs : firstSplit (h :: p')
          (t ++ (h :: p') ++ List.intercalate (h :: p') (u :: us)) =
          some (t, List.intercalate (h :: p') (u :: us)) :=
        firstSplit_append_of_head_notMem h p' t _ (fun hmem => by
          simpa using hm t (by simp) hmem)
      rw [List.append_assoc] at hfs ⊢
      rw [splitOnSep_of_some _ _ _ _ (by simp) (by simpa using hfs)]
      rw [ih (by simp) (fun x hx => hm x (List.mem_cons_of_mem t hx))]

theorem pyReplace_intercalate (h : Char) (p' r : Str) (ts : List Str) (hne : ts ≠ [])
    (hm : ∀ t ∈ ts, h ∉ t) :
    pyReplace (List.intercalate (h :: p') ts) (h :: p') r = List.intercalate r ts := by
  unfold pyReplace
  rw [if_neg (by simp), splitOnSep_intercalate h p' ts hne hm]

theorem splitGo_singleton (c : Char) (r : Str) :
    ∀ (s cur : Str),
      List.intercalate r (splitGo [c] s 0 cur) = cur.reverse ++ charExpand c r s := by
  intro s
  induction s with
  | nil => intro cur; simp [splitGo, charExpand, intercalate_single]
  | cons d ds ih =>
    intro cur
    by_cases hd : d = c
    · subst hd
      have hp : ([d] : Str).isPrefixOf (d :: ds) = true := by
        simp [List.isPrefixOf]
      rw [splitGo, if_pos hp]
      have h1 : ([d] : Str).length - 1 = 0 := by simp
      rw [h1]
      have hne := splitGo_ne_nil [d] ds 0 ([] : Str)
      rcases hx : splitGo [d] ds 0 ([] : Str) with _ | ⟨y, ys⟩
      · exact absurd hx hne
      · rw [intercalate_cons_two]
        have h2 := ih ([] : Str)
        simp only [List.reverse_nil, List.nil_append] at h2
        rw [hx] at h2
        rw [h2, charExpand, if_pos rfl]
        simp
    · have hp : ¬ ([c] : Str).isPrefixOf (d :: ds) = true := by
        simp [List.isPrefixOf]
        intro hcd
        exact absurd hcd.symm hd
      rw [splitGo, if_neg hp, ih (d :: cur)]
      rw [charExpand, if_neg hd]
      simp

theorem pyReplace_singleton (c : Char) (r s : Str) :
    pyReplace s [c] r = charExpand c r s := by
  unfold pyReplace splitOnSep
  rw [if_neg (by simp), if_neg (by simp)]
  simpa using splitGo_singleton c r s []

theorem charExpand_append (c : Char) (r x y : Str) :
    charExpand c r (x ++ y) = charExpand c r x ++ charExpand c r y := by
  induction x with
  | nil => simp [charExpand]
  | cons d ds ih => simp [charExpand, ih]

theorem escape3_eq (s : Str) :
    escape3 s = charExpand '>' (("&gt;").toList)
      (charExpand '<' (("&lt;").toList) (charExpand '&' (("&amp;").toList) s)) := by
  unfold escape3
  rw [show (("&").toList) = ['&'] from rfl, show (("<").toList) = ['<'] from rfl,
      show ((">").toList) = ['>'] from rfl]
  rw [pyReplace_singleton, pyReplace_singleton, pyReplace_singleton]

theorem escape3_append (x y : Str) : escape3 (x ++ y) = escape3 x ++ escape3 y := by
  rw [escape3_eq, escape3_eq x, escape3_eq y,
      charExpand_append, charExpand_append, charExpand_append]

theorem escape3_nil : escape3 [] = [] := by rfl

theorem escape3_intercalate (sep : Str) (ts : List Str) :
    escape3 (List.intercalate sep ts) =
      List.intercalate (escape3 sep) (ts.map escape3) := by
  induction ts with
  | nil => simp [List.intercalate, escape3_nil]
  | cons t ts' ih =>
    cases ts' with
    | nil => simp [intercalate_single]
    | cons u us =>
      rw [intercalate_cons_two, escape3_append, escape3_append, ih]
      simp only [List.map_cons, intercalate_cons_two]

theorem mem_intercalate (c : Char) (sep : Str) (ts : List Str)
    (h : c ∈ List.intercalate sep ts) : c ∈ sep ∨ ∃ t ∈ ts, c ∈ t := by
  induction ts with
  | nil => simp [List.intercalate] at h
  | cons t ts' ih =>
    cases ts' with
    | nil =>
      rw [intercalate_single] at h
      exact Or.inr ⟨t, by simp, h⟩
    | cons u us =>
      rw [intercalate_cons_two] at h
      rcases List.mem_append.mp h with h1 | h2
      · rcases List.mem_append.mp h1 with h3 | h4
        · exact Or.inr ⟨t, by simp, h3⟩
        · exact Or.inl h4
      · rcases ih h2 with h5 | ⟨x, hx, hcx⟩
        · exact Or.inl h5
        · exact Or.inr ⟨x, List.mem_cons_of_mem t hx, hcx⟩

theorem matchMathAt_of_head_ne (s : Str) (h : s.head? ≠ some '`') :
    matchMathAt s = none := by
  cases s with
  | nil => rfl
  | cons c cs =>
    unfold matchMathAt
    split
    · rename_i heq
      injection heq with h1 _
      exact absurd (by simp [h1] : (c :: cs).head? = some '`') h
    · rfl

theorem mathGo_no_backtick (s : Str) (h : '`' ∉ s) :
    ∀ cur, mathGo s 0 cur = [cur.reverse ++ s] := by
  induction s with
  | nil => intro cur; simp [mathGo]
  | cons c cs ih =>
    intro cur
    have hc : c ≠ '`' := fun hcc => h (hcc ▸ List.mem_cons_self c cs)
    have hm : matchMathAt (c :: cs) = none :=
      matchMathAt_of_head_ne _ (by simpa using fun hcc => hc hcc)
    rw [mathGo, hm, ih (fun hmem => h (List.mem_cons_of_mem c hmem)) (c :: cur)]
    simp

theorem mathSplit_no_backtick (s : Str) (h : '`' ∉ s) : mathSplit s = [s] := by
  unfold mathSplit
  simpa using mathGo_no_backtick s h []

theorem dropWhile_head_false (p : Char → Bool) (l : Str) (c : Char) (t : Str)
    (h : l.dropWhile p = c :: t) : p c = false := by
  induction l with
  | nil => simp [List.dropWhile] at h
  | cons d ds ih =>
    rw [List.dropWhile_cons] at h
    by_cases hd : p d
    · rw [if_pos (by simpa using hd)] at h
      exact ih h
    · rw [if_neg (by simpa using hd)] at h
      injection h with h1 _
      subst h1
      simpa using hd

theorem dropWhile_of_head_false (p : Char → Bool) (c : Char) (t : Str)
    (h : p c = false) : (c :: t).dropWhile p = c :: t := by
  rw [List.dropWhile_cons, if_neg (by simp [h])]

theorem dropWhile_dropWhile (p : Char → Bool) (l : Str) :
    (l.dropWhile p).dropWhile p = l.dropWhile p := by
  rcases hx : l.dropWhile p with _ | ⟨c, t⟩
  · rfl
  · exact dropWhile_of_head_false p c t (dropWhile_head_false p l c t hx)

theorem pyStrip_idem (s : Str) : pyStrip (pyStrip s) = pyStrip s := by
  unfold pyStrip
  rcases hB : ((s.dropWhile isWS).reverse.dropWhile isWS).reverse with _ | ⟨c, t⟩
  · rfl
  · have hpref : (c :: t) <+: s.dropWhile isWS := by
      rw [← hB]
      have hsfx : (s.dropWhile isWS).reverse.dropWhile isWS <:+ (s.dropWhile isWS).reverse :=
        List.dropWhile_suffix isWS
      have h2 := List.reverse_prefix.mpr hsfx
      rwa [List.reverse_reverse] at h2
    rcases hpref with ⟨r, hr⟩
    have hc : isWS c = false :=
      dropWhile_head_false isWS s c (t ++ r) (by rw [← hr]; simp)
    have h3 : (c :: t).dropWhile isWS = c :: t := dropWhile_of_head_false isWS c t hc
    rw [h3]
    have h4 : (c :: t).reverse = (s.dropWhile isWS).reverse.dropWhile isWS := by
      rw [← hB, List.reverse_reverse]
    rw [h4, dropWhile_dropWhile, ← h4, List.reverse_reverse]

/-- The separator the batch driver splits on. -/
theorem sepMarker_eq : (("---\n").toList) = ['-', '-', '-', '\n'] := rfl

theorem firstSplit_sepMarker_append (a b : Str)
    (h : firstSplit (("---\n").toList) a = none) :
    firstSplit (("---\n").toList) (a ++ (("---\n").toList) ++ b) = some (a, b) := by
  rw [sepMarker_eq] at h ⊢
  induction a with
  | nil =>
    rw [show ([] : Str) ++ ['-', '-', '-', '\n'] ++ b = '-' :: ('-' :: '-' :: '\n' :: b)
        from rfl]
    rw [firstSplit_cons]
    have hp : (['-', '-', '-', '\n'] : Str).isPrefixOf ('-' :: ('-' :: '-' :: '\n' :: b))
        = true := by
      simp [List.isPrefixOf]
    rw [if_pos hp]
    rfl
  | cons c a' ih =>
    have h1 : ¬ (['-', '-', '-', '\n'] : Str).isPrefixOf (c :: a') = true := by
      intro hp
      rw [firstSplit_cons, if_pos hp] at h
      cases h
    have h2 : firstSplit (['-', '-', '-', '\n'] : Str) a' = none := by
      rw [firstSplit_cons, if_neg h1, Option.map_eq_none'] at h
      exact h
    have hstep : (c :: a') ++ ['-', '-', '-', '\n'] ++ b
        = c :: (a' ++ ['-', '-', '-', '\n'] ++ b) := by simp
    rw [hstep, firstSplit_cons]
    have h3 : ¬ (['-', '-', '-', '\n'] : Str).isPrefixOf
        (c :: (a' ++ ['-', '-', '-', '\n'] ++ b)) = true := by
      intro hp
      rcases List.isPrefixOf_iff_prefix.mp hp with ⟨t, ht⟩
      match a' with
      | [] =>
        simp only [List.nil_append, List.cons_append] at ht
        injection ht with e1 ht; injection ht with e2 ht; injection ht with e3 ht
        injection ht with e4 _
        exact absurd e4 (by decide)
      | [x] =>
        simp only [List.cons_append, List.singleton_append] at ht
        injection ht with e1 ht; injection ht with e2 ht; injection ht with e3 ht
        injection ht with e4 _
        exact absurd e4 (by decide)
      | [x, y] =>
        simp only [List.cons_append] at ht
        injection ht with e1 ht; injection ht with e2 ht; injection ht with e3 ht
        injection ht with e4 _
        exact absurd e4 (by decide)
      | x :: y :: z :: w =>
        simp only [List.cons_append] at ht
        injection ht with e1 ht; injection ht with e2 ht; injection ht with e3 ht
        injection ht with e4 _
        apply h1
        apply List.isPrefixOf_iff_prefix.mpr
        refine ⟨w, ?_⟩
        rw [← e1, ← e2, ← e3, ← e4]
        rfl
    rw [if_neg h3, ih h2]
    rfl

theorem isPrefixOf_eq_false_of_head_notMem (h : Char) (p' s : Str) (hm : h ∉ s) :
    (h :: p').isPrefixOf s = false := by
  cases hx : (h :: p').isPrefixOf s with
  | false => rfl
  | true =>
    exfalso
    rcases List.isPrefixOf_iff_prefix.mp hx with ⟨t, ht⟩
    exact hm (by rw [← ht]; exact List.mem_append.mpr (Or.inl (List.mem_cons_self h p')))

/-- Claim C9, amended: document splitting divides the whitespace-stripped
input at the occurrences of the four-character substring `---\n` (leftmost
first, non-overlapping), not at lines containing exactly `---`; the
resulting chunks are trimmed, empty chunks dropped, and document order is
preserved.  In particular a `---` at the end of a longer line or inside a
longer dash run does cause a split whenever it is followed by a newline. -/
theorem splitDocument_characterization :
    (∀ doc, splitDocument doc =
      ((splitOnSep (("---\n").toList) (pyStrip doc)).map pyStrip).filter
        (fun b => b ≠ [])) ∧
    (∀ a b, firstSplit (("---\n").toList) a = none →
      splitOnSep (("---\n").toList) (a ++ (("---\n").toList) ++ b) =
        a :: splitOnSep (("---\n").toList) b) ∧
    (∀ s, firstSplit (("---\n").toList) s = none →
      splitOnSep (("---\n").toList) s = [s]) := by
  refine ⟨fun doc => rfl, fun a b h => ?_, fun s h => ?_⟩
  · exact splitOnSep_of_some _ _ _ _ (by decide) (firstSplit_sepMarker_append a b h)
  · exact splitOnSep_of_none _ _ (by decide) h

/-- Witness for `splitDocument_characterization` at a concrete document. -/
theorem splitDocument_characterization_witness :
    splitOnSep (("---\n").toList)
        ((("q1").toList) ++ (("---\n").toList) ++ (("q2").toList)) =
      (("q1").toList) :: splitOnSep (("---\n").toList) (("q2").toList) ∧
    splitOnSep (("---\n").toList) (("q2").toList) = [("q2").toList] :=
  ⟨splitDocument_characterization.2.1 (("q1").toList) (("q2").toList) (by decide),
   splitDocument_characterization.2.2 (("q2").toList) (by decide)⟩

theorem process_text_plain (text rep : Str) (language : Language) (htext : text ≠ [])
    (hrep : pyReplace text (("_____").toList) blankHtml = rep)
    (hnb : '`' ∉ rep) (hrne : rep ≠ []) :
    process_text_for_html text language = plainPara language (escape3 rep) := by
  unfold process_text_for_html
  rw [if_neg htext, hrep]
  dsimp only
  rw [mathSplit_no_backtick rep hnb]
  have hp2 : (("``").toList).isPrefixOf rep = false := by
    rw [show (("``").toList) = '`' :: (("`").toList) from rfl]
    exact isPrefixOf_eq_false_of_head_notMem '`' _ rep hnb
  have hp1 : (("`").toList).isPrefixOf rep = false := by
    rw [show (("`").toList) = '`' :: ([] : Str) from rfl]
    exact isPrefixOf_eq_false_of_head_notMem '`' _ rep hnb
  simp only [List.foldl_cons, List.foldl_nil, hp2, hp1, Bool.false_and, if_neg hrne]
  simp [plainPara]

/-- Claim C2, amended: each `_____` occurrence in rendered text, and each
`[BLANK]` occurrence in a gap-text stem, is replaced by its fixed HTML
marker exactly once, and no other text is altered by these replacements;
however, the markers are subsequently HTML-escaped together with the
surrounding plain text, so they appear in the output in escaped textual
form, not as live HTML markup. -/
theorem blank_and_gap_round_trip :
    (∀ (language : Language) (ts : List Str), ts ≠ [] →
      (∀ t ∈ ts, '_' ∉ t ∧ '`' ∉ t) →
      List.intercalate (("_____").toList) ts ≠ [] →
      process_text_for_html (List.intercalate (("_____").toList) ts) language =
        plainPara language (List.intercalate (escape3 blankHtml) (ts.map escape3))) ∧
    (∀ (language : Language) (g stem : Str) (content : Dict) (ss : List Str),
      lookupD content (("gaps").toList) = some g →
      lookupD content (("stem").toList) = some stem →
      pyStrip stem = stem →
      stem = List.intercalate (("[BLANK]").toList) ss →
      2 ≤ ss.length →
      (∀ t ∈ ss, '[' ∉ t ∧ '_' ∉ t ∧ '`' ∉ t) →
      ∃ keys, process_gap_text_part content language =
        .ok (keys, plainPara language
          (List.intercalate (escape3 gapHtml) (ss.map escape3)))) := by
  constructor
  · intro language ts hne hm htext
    have hrep : pyReplace (List.intercalate (("_____").toList) ts)
        (("_____").toList) blankHtml = List.intercalate blankHtml ts := by
      rw [show (("_____").toList) = '_' :: (("____").toList) from rfl]
      exact pyReplace_intercalate '_' _ blankHtml ts hne (fun t ht => (hm t ht).1)
    have hnb : '`' ∉ List.intercalate blankHtml ts := by
      intro hmem
      rcases mem_intercalate '`' blankHtml ts hmem with h1 | ⟨t, ht, hct⟩
      · exact absurd h1 (by decide)
      · exact (hm t ht).2 hct
    have hrne : List.intercalate blankHtml ts ≠ [] := by
      cases ts with
      | nil => exact absurd rfl hne
      | cons t ts' =>
        cases ts' with
        | nil =>
          rw [intercalate_single]
          rw [intercalate_single] at htext
          exact htext
        | cons u us =>
          rw [intercalate_cons_two]
          intro hemp
          rcases List.append_eq_nil.mp ((List.append_assoc t blankHtml _) ▸ hemp)
            with ⟨_, h2⟩
          rcases List.append_eq_nil.mp h2 with ⟨h3, _⟩
          exact absurd h3 (by decide)
    rw [process_text_plain _ _ language htext hrep hnb hrne, escape3_intercalate]
  · intro language g stem content ss hg hstem hstrip hss hlen hm
    refine ⟨(nonblankLines g).enum.map (fun p =>
      { value := p.2, correct_order := p.1 + 1 : GapKey }), ?_⟩
    unfold process_gap_text_part
    rw [hg, hstem]
    dsimp only
    rw [hstrip, hss]
    have hrepg : pyReplace (List.intercalate (("[BLANK]").toList) ss)
        (("[BLANK]").toList) gapHtml = List.intercalate gapHtml ss := by
      rw [show (("[BLANK]").toList) = '[' :: (("BLANK]").toList) from rfl]
      exact pyReplace_intercalate '[' _ gapHtml ss (by
          intro hss0; rw [hss0] at hlen; simp at hlen)
        (fun t ht => (hm t ht).1)
    rw [hrepg]
    have hnotu : '_' ∉ List.intercalate gapHtml ss := by
      intro hmem
      rcases mem_intercalate '_' gapHtml ss hmem with h1 | ⟨t, ht, hct⟩
      · exact absurd h1 (by decide)
      · exact (hm t ht).2.1 hct
    have hnb : '`' ∉ List.intercalate gapHtml ss := by
      intro hmem
      rcases mem_intercalate '`' gapHtml ss hmem with h1 | ⟨t, ht, hct⟩
      · exact absurd h1 (by decide)
      · exact (hm t ht).2.2 hct
    have htne : List.intercalate gapHtml ss ≠ [] := by
      rcases ss with _ | ⟨s1, _ | ⟨s2, rest⟩⟩
      · simp at hlen
      · simp at hlen
      · rw [intercalate_cons_two]
        intro hemp
        rcases List.append_eq_nil.mp ((List.append_assoc s1 gapHtml _) ▸ hemp)
          with ⟨_, h2⟩
        rcases List.append_eq_nil.mp h2 with ⟨h3, _⟩
        exact absurd h3 (by decide)
    have hrep2 : pyReplace (List.intercalate gapHtml ss)
        (("_____").toList) blankHtml = List.intercalate gapHtml ss := by
      apply pyReplace_of_none _ _ _ (by decide)
      rw [show (("_____").toList) = '_' :: (("____").toList) from rfl]
      exact firstSplit_of_head_notMem '_' _ _ hnotu
    rw [process_text_plain _ _ language htne hrep2 hnb htne, escape3_intercalate]

/-- Witness for `blank_and_gap_round_trip` at concrete inputs. -/
theorem blank_and_gap_round_trip_witness :
    process_text_for_html
        (List.intercalate (("_____").toList) [("ab").toList, ("cd").toList])
        Language.en =
      plainPara Language.en
        (List.intercalate (escape3 blankHtml)
          ([("ab").toList, ("cd").toList].map escape3)) ∧
    (∃ keys, process_gap_text_part
        [((("gaps").toList), ("k1\nk2").toList),
         ((("stem").toList), (List.intercalate (("[BLANK]").toList)
            [("x").toList, ("y").toList, ("z").toList]))] Language.en =
      .ok (keys, plainPara Language.en
        (List.intercalate (escape3 gapHtml)
          ([("x").toList, ("y").toList, ("z").toList].map escape3)))) :=
  ⟨blank_and_gap_round_trip.1 Language.en [("ab").toList, ("cd").toList]
      (by decide) (by decide) (by decide),
   blank_and_gap_round_trip.2 Language.en (("k1\nk2").toList)
      (List.intercalate (("[BLANK]").toList)
        [("x").toList, ("y").toList, ("z").toList])
      _ [("x").toList, ("y").toList, ("z").toList]
      (by decide) (by decide) (by decide) rfl (by decide) (by decide)⟩

theorem matchLoop_spec (npairs : Nat) (language : Language) :
    ∀ (ls : List Str) (j : Nat), (∀ l ∈ ls, hasSub l (("|").toList) = true) →
      ∃ cs, matchLoop npairs language j ls = .ok cs ∧
        cs.length = 2 * ls.length ∧
        ∀ k, k < ls.length →
          ((cs.get? (2 * k)).map
              (fun c => (c.group, c.index, c.fixed_order, c.correct_order)))
            = some (some 1, j + k, j + k + 1, some (j + k + 1)) ∧
          ((cs.get? (2 * k + 1)).map
              (fun c => (c.group, c.index, c.fixed_order, c.correct_order)))
            = some (some 2, j + k + npairs, j + k + 1 + npairs, some (j + k + 1)) := by
  intro ls
  induction ls with
  | nil =>
    intro j _
    exact ⟨[], rfl, by simp, fun k hk => absurd hk (by simp)⟩
  | cons l rest ih =>
    intro j hsep
    have hl : hasSub l (("|").toList) = true := hsep l (List.mem_cons_self l rest)
    rcases ih (j + 1) (fun x hx => hsep x (List.mem_cons_of_mem l hx))
      with ⟨cs', hcs', hlen', hidx'⟩
    have hcond : ¬ (hasSub l (("|").toList) = false) := by rw [hl]; simp
    have hstep : matchLoop npairs language j (l :: rest) =
        .ok ({ type := ("distractor").toList,
               html_content := process_text_for_html
                 (pyStrip ((pySplit1 (("|").toList) l).getD (l, [])).1) language,
               group := some 1, correct_order := some (j + 1), values := [],
               unit := none, index := j, fixed_order := j + 1,
               last_order := false : Choice } ::
             { type := ("distractor").toList,
               html_content := process_text_for_html
                 (pyStrip ((pySplit1 (("|").toList) l).getD (l, [])).2) language,
               group := some 2, correct_order := some (j + 1), values := [],
               unit := none, index := j + npairs, fixed_order := j + 1 + npairs,
               last_order := false : Choice } :: cs') := by
      unfold matchLoop
      rw [if_neg hcond, hcs']
    refine ⟨_, hstep, ?_, ?_⟩
    · simp
      omega
    · intro k hk
      cases k with
      | zero => constructor <;> simp
      | succ m =>
        have hm : m < rest.length := by simpa using hk
        have h2 : 2 * (m + 1) = (2 * m) + 1 + 1 := by omega
        have h3 : 2 * (m + 1) + 1 = ((2 * m) + 1) + 1 + 1 := by omega
        have e1 : j + (m + 1) = j + 1 + m := by omega
        rcases hidx' m hm with ⟨hA, hB⟩
        constructor
        · rw [h2, e1]
          simp only [List.get?_cons_succ]
          exact hA
        · rw [h3, e1]
          simp only [List.get?_cons_succ]
          exact hB

/-- Claim C4, amended: for a matching part whose `matching_pairs` section
has N non-blank lines each containing a `|` separator, exactly 2N choices
are emitted, interleaved per source line: for line j (0-based) the group-1
choice sits at list position 2j with `index = j`, `fixed_order = j + 1`,
and the group-2 choice sits at list position 2j + 1 with `index = j + N`,
`fixed_order = j + 1 + N`; both carry `correct_order = j + 1`. -/
theorem matching_part_structure (content : Dict) (language : Language) (mp : Str)
    (hmp : lookupD content (("matching_pairs").toList) = some mp)
    (hsep : ∀ l ∈ nonblankLines mp, hasSub l (("|").toList) = true) :
    ∃ cs, process_matching_part content language = .ok cs ∧
      cs.length = 2 * (nonblankLines mp).length ∧
      ∀ k, k < (nonblankLines mp).length →
        ((cs.get? (2 * k)).map
            (fun c => (c.group, c.index, c.fixed_order, c.correct_order)))
          = some (some 1, k, k + 1, some (k + 1)) ∧
        ((cs.get? (2 * k + 1)).map
            (fun c => (c.group, c.index, c.fixed_order, c.correct_order)))
          = some (some 2, k + (nonblankLines mp).length,
                  k + 1 + (nonblankLines mp).length, some (k + 1)) := by
  rcases matchLoop_spec (nonblankLines mp).length language (nonblankLines mp) 0 hsep
    with ⟨cs, hcs, hlen, hidx⟩
  refine ⟨cs, ?_, hlen, ?_⟩
  · unfold process_matching_part
    rw [hmp]
    exact hcs
  · intro k hk
    rcases hidx k hk with ⟨hA, hB⟩
    constructor
    · simpa using hA
    · simpa using hB

/-- Witness for `matching_part_structure` at a concrete matching section. -/
theorem matching_part_structure_witness :
    ∃ cs, process_matching_part
        [((("matching_pairs").toList), ("p | q").toList)] Language.en = .ok cs ∧
      cs.length = 2 * (nonblankLines (("p | q").toList)).length ∧
      ∀ k, k < (nonblankLines (("p | q").toList)).length →
        ((cs.get? (2 * k)).map
            (fun c => (c.group, c.index, c.fixed_order, c.correct_order)))
          = some (some 1, k, k + 1, some (k + 1)) ∧
        ((cs.get? (2 * k + 1)).map
            (fun c => (c.group, c.index, c.fixed_order, c.correct_order)))
          = some (some 2, k + (nonblankLines (("p | q").toList)).length,
                  k + 1 + (nonblankLines (("p | q").toList)).length, some (k + 1)) :=
  matching_part_structure
    [((("matching_pairs").toList), ("p | q").toList)] Language.en
    (("p | q").toList) (by decide) (by decide)

/-- Claim C8: metadata validation succeeds iff the map has a non-empty `id`
that parses as an integer and a `language` equal to `en` or `ar`; and on
validation failure the assembler aborts the whole question with the list of
offending fields before building any part, so no record or document is
produced. -/
theorem validate_metadata_correct :
    (∀ md : Dict, (validate_metadata md).1 = true ↔ specValidMetadata md) ∧
    (∀ now block, (validate_metadata (questionMetadata block)).1 = false →
      psqE now block = .error ((("Metadata validation failed: ").toList) ++
        joinWith ((", ").toList) (validate_metadata (questionMetadata block)).2)) := by
  constructor
  · intro md
    unfold validate_metadata specValidMetadata
    rcases hid : lookupD md (("id").toList) with _ | v <;>
    rcases hlang : lookupD md (("language").toList) with _ | w <;>
    simp only [hid, hlang, List.foldl] <;>
    first
      | (split_ifs <;>
          simp_all [show (("ar").toList) = ['a', 'r'] from rfl,
                    show (("en").toList) = ['e', 'n'] from rfl] <;>
          tauto)
      | simp_all
  · intro now block hval
    unfold questionMetadata at hval
    unfold psqE
    rw [if_pos hval]
    unfold questionMetadata
    rfl

/-- Witness for `validate_metadata_correct` at a concrete invalid block. -/
theorem validate_metadata_correct_witness :
    psqE (("T").toList) (("language: en").toList) =
      .error ((("Metadata validation failed: ").toList) ++
        joinWith ((", ").toList)
          (validate_metadata (questionMetadata (("language: en").toList))).2) :=
  validate_metadata_correct.2 (("T").toList) (("language: en").toList) (by decide)

theorem process_question_part_n (pb : Str) (ctr : Nat) (md : Dict)
    (lang : Language) (p : Part)
    (h : process_question_part pb ctr md lang = .ok p) : p.n = ctr := by
  unfold process_question_part at h
  dsimp only at h
  repeat' split at h
  all_goals first
    | exact (Except.noConfusion h)
    | (injection h with h'; subst h'; rfl)

theorem partsLoop_spec (md : Dict) (lang : Language) :
    ∀ (pbs : List Str) (ctr : Nat) (ps : List Part),
      (∀ pb ∈ pbs, pyStrip pb ≠ []) →
      partsLoop md lang ctr pbs = .ok ps →
      ps.length = pbs.length ∧
        ∀ i (hi : i < ps.length), (ps.get ⟨i, hi⟩).n = ctr + i := by
  intro pbs
  induction pbs with
  | nil =>
    intro ctr ps _ h
    injection h with h'
    subst h'
    exact ⟨rfl, fun i hi => absurd hi (by simp)⟩
  | cons pb pbs ih =>
    intro ctr ps hnb h
    unfold partsLoop at h
    rw [if_neg (by simpa using hnb pb (List.mem_cons_self pb pbs))] at h
    rcases hq : process_question_part pb ctr md lang with e | part
    · rw [hq] at h
      exact (Except.noConfusion h)
    · rw [hq] at h
      rcases hr : partsLoop md lang (ctr + 1) pbs with e | rest
      · rw [hr] at h
        exact (Except.noConfusion h)
      · rw [hr] at h
        injection h with h'
        subst h'
        rcases ih (ctr + 1) rest (fun x hx => hnb x (List.mem_cons_of_mem pb hx)) hr
          with ⟨hlen, hidx⟩
        refine ⟨by simp [hlen], ?_⟩
        intro i hi
        cases i with
        | zero =>
          simpa using process_question_part_n pb ctr md lang part hq
        | succ m =>
          have hm : m < rest.length := by simpa [hlen] using hi
          have := hidx m hm
          simp only [List.get_cons_succ]
          rw [this]  -- hmm placeholder
          omega

theorem statementAndParts_nonblank (cs : Str) (lang : Language) :
    ∀ pb ∈ (statementAndParts cs lang).2, pyStrip pb ≠ [] := by
  unfold statementAndParts
  split
  · intro pb hmem
    dsimp only at hmem
    rcases List.mem_filter.mp hmem with ⟨hmap, hne⟩
    rcases List.mem_map.mp hmap with ⟨y, _, hy⟩
    subst hy
    rw [pyStrip_idem]
    simpa using hne
  · intro pb hmem
    dsimp only at hmem
    split at hmem
    · rcases List.mem_singleton.mp hmem with rfl
      assumption
    · simp at hmem

/-- Claim C3: every emitted question record has `metadata.parts_count`
equal to the length of its parts list, a non-empty parts list (a question
with zero built parts raises `No valid parts found` instead of emitting a
record), and the i-th part (0-based) carries `n = i + 1` in document
order. -/
theorem psqE_parts_invariant (now block : Str) (r : FinalJson × Str)
    (h : psqE now block = .ok r) : partsNumbered r.1 := by
  unfold psqE at h
  dsimp only at h
  split at h
  · exact (Except.noConfusion h)
  · split at h
    · exact (Except.noConfusion h)
    · rename_i langStr hlang
      split at h
      · exact (Except.noConfusion h)
      · rename_i language hlangok
        split at h
        · exact (Except.noConfusion h)
        · rename_i base hbase
          split at h
          · exact (Except.noConfusion h)
          · rename_i parts hparts
            split at h
            · exact (Except.noConfusion h)
            · rename_i hne
              split at h
              · exact (Except.noConfusion h)
              · rename_i idv hid
                injection h with h'
                subst h'
                rcases partsLoop_spec
                    (collectMeta [] ((pySplitLines (pyStrip block)).map pyRstrip))
                    language _ 1 parts
                    (statementAndParts_nonblank _ language) hparts
                  with ⟨hlen, hidx⟩
                refine ⟨rfl, hne, ?_⟩
                intro i hi
                have := hidx i hi
                simpa [Nat.add_comm] using this

/-- Witness for `psqE_parts_invariant`: a concrete one-part MCQ block is
accepted and satisfies the invariant. -/
theorem psqE_parts_invariant_witness :
    ∃ r, psqE (("T").toList)
        (("id: 1\nlanguage: en\ntype: mcq\n[CHOICES]\n*4\n3").toList) = .ok r ∧
      partsNumbered r.1 := by
  have hok : (psqE (("T").toList)
      (("id: 1\nlanguage: en\ntype: mcq\n[CHOICES]\n*4\n3").toList)).isOk = true := by
    decide
  rcases hq : psqE (("T").toList)
      (("id: 1\nlanguage: en\ntype: mcq\n[CHOICES]\n*4\n3").toList) with e | r
  · rw [hq] at hok
    simp [Except.isOk, Except.toBool] at hok
  · exact ⟨r, rfl, psqE_parts_invariant _ _ r hq⟩

theorem process_frq_part_frq_ai_ok (content md pm : Dict) (lang : Language)
    (r : Str × Option Str)
    (h : process_frq_part content md pm lang QuestionType.frq_ai = .ok r) :
    r.2 ≠ none := by
  unfold process_frq_part at h
  split at h
  · exact (Except.noConfusion h)
  · split at h
    · dsimp only at h
      split at h
      · split at h
        · exact (Except.noConfusion h)
        · injection h with h'
          subst h'
          simp
      · exact (Except.noConfusion h)
    · simp_all

theorem process_question_part_frq_ai (pb : Str) (ctr : Nat) (md : Dict)
    (lang : Language) (p : Part)
    (h : process_question_part pb ctr md lang = .ok p)
    (ht : p.type = ("frq_ai").toList) : p.ai ≠ none := by
  unfold process_question_part at h
  dsimp only at h
  split at h
  · exact (Except.noConfusion h)
  · split at h
    · exact (Except.noConfusion h)
    · split at h
      · exact (Except.noConfusion h)
      · rename_i question_type hqt
        split at h
        all_goals
          split at h <;>
            first
              | exact (Except.noConfusion h)
              | (injection h with h'; subst h'; dsimp only at ht;
                 exact absurd ht (by decide))
              | (injection h with h'; subst h';
                 exact process_frq_part_frq_ai_ok _ _ _ _ _ (by assumption))

theorem partsLoop_frq_ai (md : Dict) (lang : Language) :
    ∀ (pbs : List Str) (ctr : Nat) (ps : List Part),
      partsLoop md lang ctr pbs = .ok ps →
      ∀ p ∈ ps, p.type = ("frq_ai").toList → p.ai ≠ none := by
  intro pbs
  induction pbs with
  | nil =>
    intro ctr ps h
    injection h with h'
    subst h'
    intro p hp
    simp at hp
  | cons pb pbs ih =>
    intro ctr ps h
    unfold partsLoop at h
    split at h
    · exact fun p hp => ih (ctr + 1) ps h p hp
    · rcases hq : process_question_part pb ctr md lang with e | part
      · rw [hq] at h
        exact (Except.noConfusion h)
      · rw [hq] at h
        rcases hr : partsLoop md lang (ctr + 1) pbs with e | rest
        · rw [hr] at h
          exact (Except.noConfusion h)
        · rw [hr] at h
          injection h with h'
          subst h'
          intro p hp ht
          rcases List.mem_cons.mp hp with rfl | hmem
          · exact process_question_part_frq_ai pb ctr md lang p hq ht
          · exact ih (ctr + 1) rest hr p hmem ht

theorem psqE_ok_partsLoop (now block : Str) (r : FinalJson × Str)
    (h : psqE now block = .ok r) :
    ∃ language parts,
      partsLoop (questionMetadata block) language 1
        (statementAndParts
          (joinWith ['\n'] (((pySplitLines (pyStrip block)).map pyRstrip).drop
            (metaEndIdx ((pySplitLines (pyStrip block)).map pyRstrip))))
          language).2 = .ok parts ∧
      r.1.parts = parts := by
  unfold psqE at h
  dsimp only at h
  split at h
  · exact (Except.noConfusion h)
  · split at h
    · exact (Except.noConfusion h)
    · split at h
      · exact (Except.noConfusion h)
      · rename_i language hlangok
        split at h
        · exact (Except.noConfusion h)
        · split at h
          · exact (Except.noConfusion h)
          · rename_i parts hparts
            split at h
            · exact (Except.noConfusion h)
            · split at h
              · exact (Except.noConfusion h)
              · injection h with h'
                subst h'
                exact ⟨language, parts, hparts, rfl⟩

/-- Claim C7: for an `frq_ai` part, a missing (or empty) `ai_template_id`
at both the part level and the question level is a hard error naming the
field, so the whole question is rejected; when present (part level taking
precedence via the Python `or`), the built part carries an `ai` attachment
with that id — and every emitted `frq_ai` part carries one.  For the plain
`frq` type the attachment is never mandatory. -/
theorem frq_ai_template_required :
    (∀ (content metadata part_metadata : Dict) (language : Language) (ans : Str),
      lookupD content (("answer").toList) = some ans →
      (pyOrStr (lookupD part_metadata (("ai_template_id").toList))
               (lookupD metadata (("ai_template_id").toList)) = none ∨
       pyOrStr (lookupD part_metadata (("ai_template_id").toList))
               (lookupD metadata (("ai_template_id").toList)) = some []) →
      process_frq_part content metadata part_metadata language QuestionType.frq_ai =
        .error (("'ai_template_id' is required for frq_ai type").toList)) ∧
    (∀ (content metadata part_metadata : Dict) (language : Language) (ans v : Str),
      lookupD content (("answer").toList) = some ans →
      pyOrStr (lookupD part_metadata (("ai_template_id").toList))
              (lookupD metadata (("ai_template_id").toList)) = some v →
      v ≠ [] →
      process_frq_part content metadata part_metadata language QuestionType.frq_ai =
        .ok (process_text_for_html (pyStrip ans) language, some v)) ∧
    (∀ (content metadata part_metadata : Dict) (language : Language) (ans : Str),
      lookupD content (("answer").toList) = some ans →
      process_frq_part content metadata part_metadata language QuestionType.frq =
        .ok (process_text_for_html (pyStrip ans) language, none)) ∧
    (∀ now block r, psqE now block = .ok r →
      ∀ p ∈ r.1.parts, p.type = ("frq_ai").toList → p.ai ≠ none) := by
  refine ⟨?_, ?_, ?_, ?_⟩
  · intro content metadata part_metadata language ans hans hai
    unfold process_frq_part
    rw [hans]
    dsimp only
    rw [if_pos rfl]
    rcases hai with hai | hai
    · rw [hai]
    · rw [hai]
      dsimp only
      rw [if_pos rfl]
  · intro content metadata part_metadata language ans v hans hai hv
    unfold process_frq_part
    rw [hans]
    dsimp only
    rw [if_pos rfl, hai]
    dsimp only
    rw [if_neg hv]
  · intro content metadata part_metadata language ans hans
    unfold process_frq_part
    rw [hans]
    dsimp only
    rw [if_neg (by decide)]
  · intro now block r h p hp ht
    rcases psqE_ok_partsLoop now block r h with ⟨language, parts, hparts, hpr⟩
    rw [hpr] at hp
    exact partsLoop_frq_ai (questionMetadata block) language _ 1 parts hparts p hp ht

/-- Witness for `frq_ai_template_required` at concrete inputs. -/
theorem frq_ai_template_required_witness :
    process_frq_part [((("answer").toList), ("ok").toList)] [] [] Language.en
        QuestionType.frq_ai =
      .error (("'ai_template_id' is required for frq_ai type").toList) ∧
    process_frq_part [((("answer").toList), ("ok").toList)]
        [((("ai_template_id").toList), ("9").toList)]
        [((("ai_template_id").toList), ("7").toList)] Language.en
        QuestionType.frq_ai =
      .ok (process_text_for_html (pyStrip (("ok").toList)) Language.en,
           some (("7").toList)) ∧
    process_frq_part [((("answer").toList), ("ok").toList)] [] [] Language.en
        QuestionType.frq =
      .ok (process_text_for_html (pyStrip (("ok").toList)) Language.en, none) ∧
    (∃ r, psqE (("T").toList)
        (("id: 2\nlanguage: en\ntype: frq_ai\nai_template_id: 5\n[ANSWER]\nyes").toList)
        = .ok r ∧ ∀ p ∈ r.1.parts, p.type = ("frq_ai").toList → p.ai ≠ none) := by
  refine ⟨?_, ?_, ?_, ?_⟩
  · exact frq_ai_template_required.1 _ _ _ Language.en (("ok").toList)
      (by decide) (Or.inl (by decide))
  · exact frq_ai_template_required.2.1 _ _ _ Language.en (("ok").toList)
      (("7").toList) (by decide) (by decide) (by decide)
  · exact frq_ai_template_required.2.2.1 _ _ _ Language.en (("ok").toList) (by decide)
  · have hok : (psqE (("T").toList)
        (("id: 2\nlanguage: en\ntype: frq_ai\nai_template_id: 5\n[ANSWER]\nyes").toList)).isOk
        = true := by decide
    rcases hq : psqE (("T").toList)
        (("id: 2\nlanguage: en\ntype: frq_ai\nai_template_id: 5\n[ANSWER]\nyes").toList)
      with e | r
    · rw [hq] at hok
      simp [Except.isOk, Except.toBool] at hok
    · exact ⟨r, rfl, frq_ai_template_required.2.2.2 _ _ r hq⟩

theorem dictGetE_ok (d : Dict) (k v : Str) (h : dictGetE d k = .ok v) :
    lookupD d k = some v := by
  unfold dictGetE at h
  split at h
  · rename_i w hw
    injection h with h'
    subst h'
    exact hw
  · exact (Except.noConfusion h)

theorem languageOfE_ok_ar (s : Str) (h : languageOfE s = .ok Language.ar) :
    s = ("ar").toList := by
  unfold languageOfE at h
  by_cases h1 : s = ("ar").toList
  · exact h1
  · rw [if_neg h1] at h
    by_cases h2 : s = ("en").toList
    · rw [if_pos h2] at h
      exact (Language.noConfusion (Except.ok.inj h))
    · rw [if_neg h2] at h
      exact (Except.noConfusion h)

theorem languageOfE_ar_ok (s : Str) (h : s = ("ar").toList) :
    languageOfE s = .ok Language.ar := by
  subst h
  rfl

theorem create_base_ids (md : Dict) (now : Str) (fj : FinalJson)
    (h : create_base_json_structure md now = .ok fj) :
    ((lookupD md (("language").toList) = some (("ar").toList) ∧
      (lookupD md (("mapped_id").toList)).isSome = true) →
      ∀ mv i, lookupD md (("mapped_id").toList) = some mv →
        lookupD md (("id").toList) = some i →
        pyIntE mv = .ok fj.metadata.id ∧ pyIntE i = .ok fj.metadata.mapped_id) ∧
    (¬ (lookupD md (("language").toList) = some (("ar").toList) ∧
        (lookupD md (("mapped_id").toList)).isSome = true) →
      ∀ i, lookupD md (("id").toList) = some i →
        pyIntE i = .ok fj.metadata.id ∧ fj.metadata.mapped_id = fj.metadata.id) := by
  unfold create_base_json_structure at h
  split at h
  · exact (Except.noConfusion h)
  · rename_i langStr heqL
    split at h
    · exact (Except.noConfusion h)
    · rename_i language heqLo
      split at h
      · exact (Except.noConfusion h)
      · rename_i idStr heqI
        split at h
        · exact (Except.noConfusion h)
        · rename_i qid heqQ
          dsimp only at h
          split at h
          · exact (Except.noConfusion h)
          · rename_i ids heqS
            injection h with h'
            subst h'
            have hidv := dictGetE_ok md (("id").toList) idStr heqI
            have hlangv := dictGetE_ok md (("language").toList) langStr heqL
            split at heqS
            · rename_i mv' hmv'
              split at heqS
              · exact (Except.noConfusion heqS)
              · rename_i m heqM
                injection heqS with hids
                subst hids
                constructor
                · intro _ mv i hmv hi
                  rw [hmv'] at hmv
                  injection hmv with hmv
                  subst hmv
                  rw [hidv] at hi
                  injection hi with hi
                  subst hi
                  exact ⟨heqM, heqQ⟩
                · intro hnot
                  exfalso
                  apply hnot
                  constructor
                  · rw [hlangv, languageOfE_ok_ar langStr heqLo]
                  · rw [hmv']
                    rfl
            · rename_i hnotar
              injection heqS with hids
              subst hids
              constructor
              · intro hyes mv i hmv hi
                exfalso
                rcases hyes with ⟨har, hms⟩
                rw [hlangv] at har
                injection har with har
                have hlar : languageOfE langStr = .ok Language.ar :=
                  languageOfE_ar_ok langStr har
                rw [heqLo] at hlar
                exact hnotar mv (Except.ok.inj hlar) hmv
              · intro _ i hi
                rw [hidv] at hi
                injection hi with hi
                subst hi
                exact ⟨heqQ, rfl⟩

theorem psqE_ok_base (now block : Str) (r : FinalJson × Str)
    (h : psqE now block = .ok r) :
    ∃ base idv,
      create_base_json_structure (questionMetadata block) now = .ok base ∧
      dictGetE (questionMetadata block) (("id").toList) = .ok idv ∧
      r.2 = idv ++ ((".json").toList) ∧
      r.1.metadata.id = base.metadata.id ∧
      r.1.metadata.mapped_id = base.metadata.mapped_id := by
  unfold psqE at h
  dsimp only at h
  split at h
  · exact (Except.noConfusion h)
  · split at h
    · exact (Except.noConfusion h)
    · split at h
      · exact (Except.noConfusion h)
      · split at h
        · exact (Except.noConfusion h)
        · rename_i base hbase
          split at h
          · exact (Except.noConfusion h)
          · split at h
            · exact (Except.noConfusion h)
            · split at h
              · exact (Except.noConfusion h)
              · rename_i idv hid
                injection h with h'
                subst h'
                exact ⟨base, idv, hbase, hid, rfl, rfl, rfl⟩

/-- Claim C10: for an accepted question whose markup language is Arabic and
whose metadata carries a `mapped_id`, the emitted record's `metadata.id` is
the integer value of `mapped_id` and `metadata.mapped_id` is the integer
value of the markup `id` (the two are swapped), while the output file is
still named after the raw markup `id`; for every other accepted question,
`metadata.id` and `metadata.mapped_id` both equal the integer value of the
markup `id`, and the file is named after it. -/
theorem psqE_mapped_id_swap (now block : Str) (r : FinalJson × Str)
    (h : psqE now block = .ok r) :
    (∀ i, lookupD (questionMetadata block) (("id").toList) = some i →
      r.2 = i ++ ((".json").toList)) ∧
    ((lookupD (questionMetadata block) (("language").toList) = some (("ar").toList) ∧
      (lookupD (questionMetadata block) (("mapped_id").toList)).isSome = true) →
      ∀ mv i, lookupD (questionMetadata block) (("mapped_id").toList) = some mv →
        lookupD (questionMetadata block) (("id").toList) = some i →
        pyIntE mv = .ok r.1.metadata.id ∧ pyIntE i = .ok r.1.metadata.mapped_id) ∧
    (¬ (lookupD (questionMetadata block) (("language").toList) = some (("ar").toList) ∧
        (lookupD (questionMetadata block) (("mapped_id").toList)).isSome = true) →
      ∀ i, lookupD (questionMetadata block) (("id").toList) = some i →
        pyIntE i = .ok r.1.metadata.id ∧
        r.1.metadata.mapped_id = r.1.metadata.id) := by
  rcases psqE_ok_base now block r h with ⟨base, idv, hbase, hid, hfn, hid1, hid2⟩
  rcases create_base_ids (questionMetadata block) now base hbase with ⟨hswap, hnoswap⟩
  have hidv := dictGetE_ok _ _ _ hid
  refine ⟨?_, ?_, ?_⟩
  · intro i hi
    rw [hidv] at hi
    injection hi with hi
    subst hi
    exact hfn
  · intro hyes mv i hmv hi
    rw [hid1, hid2]
    exact hswap hyes mv i hmv hi
  · intro hnot i hi
    rw [hid1, hid2]
    exact hnoswap hnot i hi

/-- Witness for `psqE_mapped_id_swap`: a concrete accepted Arabic question
with a `mapped_id`. -/
theorem psqE_mapped_id_swap_witness :
    ∃ r, psqE (("T").toList)
        (("id: 5\nlanguage: ar\nmapped_id: 7\ntype: mcq\n[CHOICES]\n*a").toList)
        = .ok r ∧
      ((lookupD (questionMetadata
          (("id: 5\nlanguage: ar\nmapped_id: 7\ntype: mcq\n[CHOICES]\n*a").toList))
          (("language").toList) = some (("ar").toList) ∧
        (lookupD (questionMetadata
          (("id: 5\nlanguage: ar\nmapped_id: 7\ntype: mcq\n[CHOICES]\n*a").toList))
          (("mapped_id").toList)).isSome = true) →
        ∀ mv i, lookupD (questionMetadata
            (("id: 5\nlanguage: ar\nmapped_id: 7\ntype: mcq\n[CHOICES]\n*a").toList))
            (("mapped_id").toList) = some mv →
          lookupD (questionMetadata
            (("id: 5\nlanguage: ar\nmapped_id: 7\ntype: mcq\n[CHOICES]\n*a").toList))
            (("id").toList) = some i →
          pyIntE mv = .ok r.1.metadata.id ∧ pyIntE i = .ok r.1.metadata.mapped_id) := by
  have hok : (psqE (("T").toList)
      (("id: 5\nlanguage: ar\nmapped_id: 7\ntype: mcq\n[CHOICES]\n*a").toList)).isOk
      = true := by decide
  rcases hq : psqE (("T").toList)
      (("id: 5\nlanguage: ar\nmapped_id: 7\ntype: mcq\n[CHOICES]\n*a").toList)
    with e | r
  · rw [hq] at hok
    simp [Except.isOk, Except.toBool] at hok
  · exact ⟨r, rfl, (psqE_mapped_id_swap _ _ r hq).2.1⟩

theorem statsLoop_spec (now : Str) (bs : List Str) :
    statsLoop now bs =
      { total_questions := 0,
        successful := bs.countP (fun b => (process_single_question now b).isSome),
        failed := bs.countP (fun b => (process_single_question now b).isNone),
        generated_files := bs.filterMap (process_single_question now) } := by
  induction bs with
  | nil => rfl
  | cons b bs ih =>
    unfold statsLoop
    rw [ih]
    rcases hb : process_single_question now b with _ | f <;>
      simp [List.countP_cons, List.filterMap_cons, hb]

theorem countP_eraseIdx {α : Type} (l : List α) (i : Nat) (h : i < l.length)
    (p : α → Bool) :
    l.countP p = (l.eraseIdx i).countP p +
      (if p l[i] then 1 else 0) := by
  induction l generalizing i with
  | nil => simp at h
  | cons x xs ih =>
    cases i with
    | zero => simp [List.countP_cons]
    | succ j =>
      simp only [List.eraseIdx_cons_succ, List.countP_cons, List.getElem_cons_succ]
      rw [ih j (by simpa using h)]
      omega

theorem filterMap_eraseIdx {α β : Type} (l : List α) (i : Nat) (h : i < l.length)
    (f : α → Option β) (hf : f l[i] = none) :
    l.filterMap f = (l.eraseIdx i).filterMap f := by
  induction l generalizing i with
  | nil => simp at h
  | cons x xs ih =>
    cases i with
    | zero =>
      have hfx : f x = none := hf
      simp only [List.eraseIdx_cons_zero]
      simp [List.filterMap_cons, hfx]
    | succ j =>
      have hj : j < xs.length := by simpa using h
      have hfx : f xs[j] = none := hf
      simp only [List.eraseIdx_cons_succ]
      rw [List.filterMap_cons, List.filterMap_cons]
      cases hx : f x <;>
        simp [hx, ih j hj hfx]

theorem process_google_doc_ok (now doc : Str) (h : splitDocument doc ≠ []) :
    process_google_doc now doc = .ok
      { total_questions := (splitDocument doc).length,
        successful := (splitDocument doc).countP
          (fun b => (process_single_question now b).isSome),
        failed := (splitDocument doc).countP
          (fun b => (process_single_question now b).isNone),
        generated_files := (splitDocument doc).filterMap
          (process_single_question now) } := by
  unfold process_google_doc
  dsimp only
  rw [statsLoop_spec]
  rw [if_neg (fun hc => h (List.length_eq_zero.mp hc))]

/-- Claim C6: when processing one question block raises, the batch driver
records exactly one additional failure for it, produces no generated file
for it, and every other block of the document contributes to the outcome
exactly as it would on its own (per-question failure isolation). -/
theorem batch_isolates_failures (now doc : Str) (i : Nat)
    (hi : i < (splitDocument doc).length)
    (hf : process_single_question now (splitDocument doc)[i] = none) :
    ∃ st, process_google_doc now doc = .ok st ∧
      st.total_questions = (splitDocument doc).length ∧
      st.failed = ((splitDocument doc).eraseIdx i).countP
        (fun b => (process_single_question now b).isNone) + 1 ∧
      st.successful = ((splitDocument doc).eraseIdx i).countP
        (fun b => (process_single_question now b).isSome) ∧
      st.generated_files = ((splitDocument doc).eraseIdx i).filterMap
        (process_single_question now) := by
  have hne : splitDocument doc ≠ [] := by
    intro hc
    rw [hc] at hi
    simp at hi
  refine ⟨_, process_google_doc_ok now doc hne, rfl, ?_, ?_, ?_⟩
  · rw [countP_eraseIdx (splitDocument doc) i hi
        (fun b => (process_single_question now b).isNone)]
    rw [hf]
    simp
  · rw [countP_eraseIdx (splitDocument doc) i hi]
    simp [hf]
  · exact filterMap_eraseIdx (splitDocument doc) i hi _ hf

/-- Witness for `batch_isolates_failures`: a two-block document whose first
block fails (no question type) and whose second block succeeds. -/
theorem batch_isolates_failures_witness :
    ∃ st, process_google_doc (("T").toList)
        (("id: 1\nlanguage: en\n---\nid: 2\nlanguage: en\ntype: mcq\n[CHOICES]\n*a").toList)
        = .ok st ∧
      st.total_questions = (splitDocument
        (("id: 1\nlanguage: en\n---\nid: 2\nlanguage: en\ntype: mcq\n[CHOICES]\n*a").toList)).length ∧
      st.failed = ((splitDocument
        (("id: 1\nlanguage: en\n---\nid: 2\nlanguage: en\ntype: mcq\n[CHOICES]\n*a").toList)).eraseIdx 0).countP
        (fun b => (process_single_question (("T").toList) b).isNone) + 1 ∧
      st.successful = ((splitDocument
        (("id: 1\nlanguage: en\n---\nid: 2\nlanguage: en\ntype: mcq\n[CHOICES]\n*a").toList)).eraseIdx 0).countP
        (fun b => (process_single_question (("T").toList) b).isSome) ∧
      st.generated_files = ((splitDocument
        (("id: 1\nlanguage: en\n---\nid: 2\nlanguage: en\ntype: mcq\n[CHOICES]\n*a").toList)).eraseIdx 0).filterMap
        (process_single_question (("T").toList)) :=
  batch_isolates_failures (("T").toList)
    (("id: 1\nlanguage: en\n---\nid: 2\nlanguage: en\ntype: mcq\n[CHOICES]\n*a").toList)
    0 (by decide) (by decide)

end QProc
